import Mathlib

set_option maxRecDepth 8000

/-!
Verification development for the Analizador_Algoritmos repository.

Part A models the front-end compiler stage (lexer and recursive-descent
parser for bilingual pseudocode).  The repository ships only the grammar
documentation for this stage (the referenced `src/lexer.py`,
`src/parser.py`, `src/ast_nodes.py` modules are not part of the visible
tree), so these definitions are modelled from the specification text and
the grammar documents.

Part B embeds the data-normalisation helpers of the frontend
(`detectAnalysisType`, `parseLineAnalysis`) directly from their
JavaScript source.
-/

namespace AA

/-! ## Part B: JavaScript value model for the normalizer functions -/

/-- A model of JavaScript runtime values, sufficient for the normalizer
functions: null, undefined, booleans, numbers (integral model), strings,
arrays and plain objects. -/
inductive JVal
  | jnull
  | jundefined
  | jbool (b : Bool)
  | jnum (n : Int)
  | jstr (s : String)
  | jarr (elems : List JVal)
  | jobj (fields : List (String × JVal))

/-- JavaScript truthiness of a value. -/
def truthy : JVal → Bool
  | .jnull => false
  | .jundefined => false
  | .jbool b => b
  | .jnum n => !(n == 0)
  | .jstr s => !(s == "")
  | .jarr _ => true
  | .jobj _ => true

/-- Optional-chaining field access: reading a property of a non-object
(or a missing property) yields undefined. -/
def getF : JVal → String → JVal
  | .jobj fs, k =>
    match fs.find? (fun p => p.1 == k) with
    | some p => p.2
    | none => .jundefined
  | _, _ => .jundefined

/-- Array indexing; non-arrays and out-of-range indices yield undefined. -/
def getIdx : JVal → Nat → JVal
  | .jarr l, n => l.getD n .jundefined
  | _, _ => .jundefined

/-- Array.isArray. -/
def isArr : JVal → Bool
  | .jarr _ => true
  | _ => false

/-- typeof v === "string" test. -/
def isStr : JVal → Bool
  | .jstr _ => true
  | _ => false

/-- .length of an array value (0 on non-arrays; the code only reads it
after an Array.isArray check). -/
def lenOf : JVal → Nat
  | .jarr l => l.length
  | _ => 0

/-- Strict equality of a value with a string literal, as used by the
checks of the form data.type === "iterativo". -/
def typeIs (v : JVal) (s : String) : Bool :=
  match v with
  | .jstr t => t == s
  | _ => false

/-- Embedded from src/unnamed/part_000, function detectAnalysisType:
detects the kind of analysis from the shape of the backend JSON. -/
def detectAnalysisType (data : JVal) : String :=
  if !(truthy data) then "unknown"
  else if truthy (getF (getF data "extra") "cases")
      ∧ isArr (getF (getF data "extra") "cases")
      ∧ 0 < lenOf (getF (getF data "extra") "cases") then "iterative"
  else if truthy (getF data "explain_solution_steps")
      ∧ isArr (getF data "explain_solution_steps")
      ∧ 0 < lenOf (getF data "explain_solution_steps")
      ∧ truthy (getF (getIdx (getF data "explain_solution_steps") 0) "case_type")
      then "recursive"
  else if typeIs (getF data "type") "iterativo"
      ∧ truthy (getF (getF data "extra") "cases") then "iterative"
  else if (typeIs (getF data "type") "Recursivo" ∨ typeIs (getF data "type") "recursivo")
      ∧ truthy (getF data "explain_solution_steps") then "recursive"
  else "unknown"

/-- Is `pre` a leading segment of `l`. -/
def isPre : List Char → List Char → Bool
  | [], _ => true
  | _ :: _, [] => false
  | a :: as, b :: bs => a == b && isPre as bs

/-- Does `hay` contain `needle` as a contiguous segment. -/
def containsSub (needle : List Char) : List Char → Bool
  | [] => isPre needle []
  | c :: rest => isPre needle (c :: rest) || containsSub needle rest

/-- Model of the JavaScript String.prototype.includes test. -/
def strIncludes (hay needle : String) : Bool :=
  containsSub needle.toList hay.toList

/-- JSON whitespace. -/
def jsonWs (c : Char) : Bool := c == ' ' || c == '\n' || c == '\t' || c == '\r'

/-- Parsing modes of the JSON value scanner: a value, or the remainder
of an array after at least one element. -/
inductive JMode
  | val
  | arrRest (acc : List JVal)

/-- Modelled from the spec and the JavaScript builtin contract: a small
executable model of JSON.parse covering null, booleans, numbers (integral
value; fraction digits are consumed but the fractional value is not
modelled), strings without escape handling, and arrays.  It is used only
to model the try/catch around JSON.parse in parseLineAnalysis: success
returns the parsed value, any failure returns none. -/
def jstep : Nat → JMode → List Char → Option (JVal × List Char)
  | 0, _, _ => none
  | f + 1, .val, cs0 =>
    match cs0.dropWhile jsonWs with
    | [] => none
    | c :: rest =>
      if c = 'n' then
        match rest with
        | 'u' :: 'l' :: 'l' :: r => some (.jnull, r)
        | _ => none
      else if c = 't' then
        match rest with
        | 'r' :: 'u' :: 'e' :: r => some (.jbool true, r)
        | _ => none
      else if c = 'f' then
        match rest with
        | 'a' :: 'l' :: 's' :: 'e' :: r => some (.jbool false, r)
        | _ => none
      else if c = '"' then
        match rest.dropWhile (fun x => !(x == '"')) with
        | '"' :: r2 => some (.jstr (String.mk (rest.takeWhile (fun x => !(x == '"')))), r2)
        | _ => none
      else if c = '-' then
        match rest with
        | d :: _ =>
          if d.isDigit then
            let w := rest.takeWhile Char.isDigit
            let r2 := rest.dropWhile Char.isDigit
            some (.jnum (-(Int.ofNat (natOfDigits w))), r2)
          else none
        | [] => none
      else if c.isDigit then
        let w := (c :: rest).takeWhile Char.isDigit
        let r2 := rest.dropWhile Char.isDigit
        some (.jnum (Int.ofNat (natOfDigits w)), r2)
      else if c = '[' then
        match rest.dropWhile jsonWs with
        | ']' :: r => some (.jarr [], r)
        | _ =>
          match jstep f .val rest with
          | some (v, r2) => jstep f (.arrRest [v]) r2
          | none => none
      else none
  | f + 1, .arrRest acc, cs0 =>
    match cs0.dropWhile jsonWs with
    | ',' :: r =>
      match jstep f .val r with
      | some (v, r2) => jstep f (.arrRest (acc ++ [v])) r2
      | none => none
    | ']' :: r => some (.jarr acc, r)
    | _ => none
where
  natOfDigits (w : List Char) : Nat :=
    w.foldl (fun a c => a * 10 + (c.toNat - 48)) 0

/-- Model of JSON.parse as used by parseLineAnalysis: some value on
success, none when the string is rejected. -/
def jsonParse (s : String) : Option JVal :=
  match jstep (2 * s.length + 16) .val s.toList with
  | some (v, rest) => if (rest.dropWhile jsonWs).isEmpty then some v else none
  | none => none

/-- Embedded from src/unnamed/part_000, function parseLineAnalysis:
normalises the line_analysis payload; the JavaScript try/catch around
JSON.parse is modelled by the Option result of jsonParse. -/
def parseLineAnalysis (v : JVal) : JVal :=
  if !(truthy v) then .jarr []
  else
    match v with
    | .jstr s =>
      if strIncludes s "Error" ∨ strIncludes s "===" then .jarr []
      else
        match jsonParse s with
        | some r => r
        | none => .jarr []
    | .jarr l => .jarr l
    | _ => .jarr []

/-! ## Part A: lexer

Modelled from the spec: the repository references the lexer module
(`src/lexer.py`) from its grammar documentation but the module itself is
not part of the visible tree.  The definitions below follow spec
sections 3 and 4.1 and the keyword and operator tables of the grammar
documents.  The `pos` field of `Token` is not required by the spec data
model; it records the 0-based source offset of the first character of
the token and is used by the theorems to relate token positions to the
source text. -/

/-- Closed enumeration of token kinds (spec section 3).  Both the
Spanish and the English spelling of a keyword map to the same kind. -/
inductive TokenKind
  | kwIf | kwThen | kwElse | kwEndIf
  | kwWhile | kwDo | kwEndWhile
  | kwFor | kwTo | kwStep | kwEndFor
  | kwBegin | kwEnd
  | kwAnd | kwOr | kwNot | kwMod
  | kwTrue | kwFalse
  | tyInt | tyReal | tyString | tyBool | tyChar
  | identTok | intLit | realLit | strLit
  | opPlus | opMinus | opStar | opSlash | opPercent
  | opEq | opNe | opLt | opGt | opLe | opGe
  | opAssign
  | lparen | rparen | lbracket | rbracket | lbrace | rbrace
  | comma | semicolon
  | eofTok
  deriving DecidableEq, Repr

/-- A positioned token: kind, raw lexeme, 1-based line and column, and
the 0-based source offset of its first character. -/
structure Token where
  kind : TokenKind
  lexeme : String
  line : Nat
  col : Nat
  pos : Nat
  deriving DecidableEq, Repr

/-- The bilingual keyword table: a single lookup table mapping every
accepted (upper-cased) spelling to one canonical kind (spec section 9). -/
def keywordTable : List (String × TokenKind) :=
  [("SI", .kwIf), ("IF", .kwIf),
   ("ENTONCES", .kwThen), ("THEN", .kwThen),
   ("SINO", .kwElse), ("ELSE", .kwElse),
   ("FIN_SI", .kwEndIf), ("END_IF", .kwEndIf),
   ("MIENTRAS", .kwWhile), ("WHILE", .kwWhile),
   ("HACER", .kwDo), ("DO", .kwDo),
   ("FIN_MIENTRAS", .kwEndWhile), ("END_WHILE", .kwEndWhile),
   ("PARA", .kwFor), ("FOR", .kwFor),
   ("HASTA", .kwTo), ("TO", .kwTo),
   ("PASO", .kwStep), ("STEP", .kwStep),
   ("FIN_PARA", .kwEndFor), ("END_FOR", .kwEndFor),
   ("INICIO", .kwBegin), ("BEGIN", .kwBegin),
   ("FIN", .kwEnd), ("END", .kwEnd),
   ("Y", .kwAnd), ("AND", .kwAnd),
   ("O", .kwOr), ("OR", .kwOr),
   ("NO", .kwNot), ("NOT", .kwNot),
   ("MOD", .kwMod),
   ("VERDADERO", .kwTrue), ("TRUE", .kwTrue),
   ("FALSO", .kwFalse), ("FALSE", .kwFalse),
   ("ENTERO", .tyInt), ("INT", .tyInt),
   ("REAL", .tyReal), ("FLOAT", .tyReal),
   ("CADENA", .tyString), ("STRING", .tyString),
   ("BOOLEANO", .tyBool), ("BOOLEAN", .tyBool),
   ("CARACTER", .tyChar), ("CHAR", .tyChar)]

/-- The Spanish and English spellings of each bilingual keyword pair. -/
def bilingualPairs : List (String × String) :=
  [("SI", "IF"), ("ENTONCES", "THEN"), ("SINO", "ELSE"), ("FIN_SI", "END_IF"),
   ("MIENTRAS", "WHILE"), ("HACER", "DO"), ("FIN_MIENTRAS", "END_WHILE"),
   ("PARA", "FOR"), ("HASTA", "TO"), ("PASO", "STEP"), ("FIN_PARA", "END_FOR"),
   ("INICIO", "BEGIN"), ("FIN", "END"),
   ("Y", "AND"), ("O", "OR"), ("NO", "NOT"),
   ("VERDADERO", "TRUE"), ("FALSO", "FALSE"),
   ("ENTERO", "INT"), ("REAL", "FLOAT"), ("CADENA", "STRING"),
   ("BOOLEANO", "BOOLEAN"), ("CARACTER", "CHAR")]

/-- Case-insensitive keyword lookup on an already upper-cased word. -/
def kwLookup (w : String) : Option TokenKind :=
  (keywordTable.find? (fun p => p.1 = w)).map (fun p => p.2)

/-- Kind of a scanned word: keyword kind when the upper-cased spelling
is in the table, identifier otherwise. -/
def keywordKind (w : List Char) : TokenKind :=
  match kwLookup (String.mk (w.map Char.toUpper)) with
  | some k => k
  | none => .identTok

/-- Identifier start: letter or underscore. -/
def isIdentStart (c : Char) : Bool := c.isAlpha || c = '_'

/-- Identifier continuation: letter, digit or underscore. -/
def isWordChar (c : Char) : Bool := c.isAlpha || c.isDigit || c = '_'

/-- Non-newline whitespace. -/
def isSpaceChar (c : Char) : Bool := c = ' ' || c = '\t' || c = '\r'

/-- The single-character operator and punctuation table. -/
def singleOps : List (Char × TokenKind) :=
  [('+', .opPlus), ('-', .opMinus), ('*', .opStar), ('/', .opSlash),
   ('%', .opPercent), ('=', .opEq), ('(', .lparen), (')', .rparen),
   ('[', .lbracket), (']', .rbracket), ('{', .lbrace), ('}', .rbrace),
   (',', .comma), (';', .semicolon)]

/-- Single-character operators and punctuation. -/
def singleOpKind (c : Char) : Option TokenKind :=
  (singleOps.find? (fun p => p.1 == c)).map (fun p => p.2)

/-- Characters that unconditionally begin a lexical rule.  The bang
character is excluded: it begins a token only when followed by an
equals sign. -/
def charStartsToken (c : Char) : Bool :=
  c = '\n' || isSpaceChar c || c = '#' || isIdentStart c || c.isDigit ||
  c = '"' || c = '\'' || c = '<' || c = '>' || c = '🡨' ||
  (singleOpKind c).isSome

/-- Kinds of lexical failure: an unrecognized character, an untermina-
ted string literal (string literals do not span lines), or exhaustion
of the structural-recursion fuel (proved unreachable for the fuel used
by `lex`). -/
inductive LexErrKind
  | badChar (c : Char)
  | unterminatedString
  | outOfFuel
  deriving DecidableEq, Repr

/-- A lexical error with the 1-based position of the offending
character. -/
structure LexError where
  kind : LexErrKind
  line : Nat
  col : Nat
  deriving DecidableEq, Repr

/-- The lexer loop.  Consumes the input left to right, maintaining the
1-based line and column counters and the 0-based offset, skipping
whitespace and `#` comments, recognizing keywords case-insensitively,
identifiers, integer and real literals, string literals, and
multi-character operators greedily before single-character fallbacks. -/
def lexLoop : Nat → List Char → Nat → Nat → Nat → Except LexError (List Token)
  | 0, _, line, col, _ => .error ⟨.outOfFuel, line, col⟩
  | fuel + 1, cs, line, col, pos =>
    match cs with
    | [] => .ok [⟨.eofTok, "", line, col, pos⟩]
    | c :: rest =>
      if c = '\n' then
        lexLoop fuel rest (line + 1) 1 (pos + 1)
      else if isSpaceChar c then
        lexLoop fuel rest line (col + 1) (pos + 1)
      else if c = '#' then
        let w := rest.takeWhile (fun x => !(x == '\n'))
        let rest2 := rest.dropWhile (fun x => !(x == '\n'))
        lexLoop fuel rest2 line (col + 1 + w.length) (pos + 1 + w.length)
      else if isIdentStart c then
        let w := rest.takeWhile isWordChar
        let rest2 := rest.dropWhile isWordChar
        (lexLoop fuel rest2 line (col + 1 + w.length) (pos + 1 + w.length)).map
          (fun ts => ⟨keywordKind (c :: w), String.mk (c :: w), line, col, pos⟩ :: ts)
      else if c.isDigit then
        let w := rest.takeWhile Char.isDigit
        let rest2 := rest.dropWhile Char.isDigit
        match rest2 with
        | p0 :: p1 :: rest3 =>
          if p0 = '.' ∧ p1.isDigit then
            let fw := rest3.takeWhile Char.isDigit
            let rest4 := rest3.dropWhile Char.isDigit
            (lexLoop fuel rest4 line (col + w.length + fw.length + 3)
                (pos + w.length + fw.length + 3)).map
              (fun ts =>
                ⟨.realLit, String.mk (c :: w ++ p0 :: p1 :: fw), line, col, pos⟩ :: ts)
          else
            (lexLoop fuel rest2 line (col + 1 + w.length) (pos + 1 + w.length)).map
              (fun ts => ⟨.intLit, String.mk (c :: w), line, col, pos⟩ :: ts)
        | _ =>
          (lexLoop fuel rest2 line (col + 1 + w.length) (pos + 1 + w.length)).map
            (fun ts => ⟨.intLit, String.mk (c :: w), line, col, pos⟩ :: ts)
      else if c = '"' ∨ c = '\'' then
        let w := rest.takeWhile (fun x => !(x == c) && !(x == '\n'))
        let rest2 := rest.dropWhile (fun x => !(x == c) && !(x == '\n'))
        match rest2 with
        | q :: rest3 =>
          if q = c then
            (lexLoop fuel rest3 line (col + w.length + 2) (pos + w.length + 2)).map
              (fun ts => ⟨.strLit, String.mk w, line, col, pos⟩ :: ts)
          else .error ⟨.unterminatedString, line, col⟩
        | [] => .error ⟨.unterminatedString, line, col⟩
      else if c = '<' then
        match rest with
        | r0 :: rest2 =>
          if r0 = '-' then
            (lexLoop fuel rest2 line (col + 2) (pos + 2)).map
              (fun ts => ⟨.opAssign, "<-", line, col, pos⟩ :: ts)
          else if r0 = '=' then
            (lexLoop fuel rest2 line (col + 2) (pos + 2)).map
              (fun ts => ⟨.opLe, "<=", line, col, pos⟩ :: ts)
          else if r0 = '>' then
            (lexLoop fuel rest2 line (col + 2) (pos + 2)).map
              (fun ts => ⟨.opNe, "<>", line, col, pos⟩ :: ts)
          else
            (lexLoop fuel rest line (col + 1) (pos + 1)).map
              (fun ts => ⟨.opLt, "<", line, col, pos⟩ :: ts)
        | [] =>
          (lexLoop fuel rest line (col + 1) (pos + 1)).map
            (fun ts => ⟨.opLt, "<", line, col, pos⟩ :: ts)
      else if c = '>' then
        match rest with
        | r0 :: rest2 =>
          if r0 = '=' then
            (lexLoop fuel rest2 line (col + 2) (pos + 2)).map
              (fun ts => ⟨.opGe, ">=", line, col, pos⟩ :: ts)
          else
            (lexLoop fuel rest line (col + 1) (pos + 1)).map
              (fun ts => ⟨.opGt, ">", line, col, pos⟩ :: ts)
        | [] =>
          (lexLoop fuel rest line (col + 1) (pos + 1)).map
            (fun ts => ⟨.opGt, ">", line, col, pos⟩ :: ts)
      else if c = '!' then
        match rest with
        | r0 :: rest2 =>
          if r0 = '=' then
            (lexLoop fuel rest2 line (col + 2) (pos + 2)).map
              (fun ts => ⟨.opNe, "!=", line, col, pos⟩ :: ts)
          else .error ⟨.badChar c, line, col⟩
        | [] => .error ⟨.badChar c, line, col⟩
      else if c = '🡨' then
        (lexLoop fuel rest line (col + 1) (pos + 1)).map
          (fun ts => ⟨.opAssign, "🡨", line, col, pos⟩ :: ts)
      else
        match singleOpKind c with
        | some k =>
          (lexLoop fuel rest line (col + 1) (pos + 1)).map
            (fun ts => ⟨k, String.mk [c], line, col, pos⟩ :: ts)
        | none => .error ⟨.badChar c, line, col⟩

/-- The lexer: a total function from a source string to a finite token
sequence terminated by an end-of-input token, or a lexical error. -/
def lex (src : String) : Except LexError (List Token) :=
  lexLoop (src.toList.length + 1) src.toList 1 1 0

/-- Kind sequence of a lexed source, for stating token-level facts. -/
def lexKinds (src : String) : Option (List TokenKind) :=
  (lex src).toOption.map (fun ts => ts.map Token.kind)

/-! ## Part A: AST and parser

Modelled from the spec (sections 3 and 4.2): typed AST nodes, with every
statement-bearing node recording its source line, and a recursive-
descent parser with one-token lookahead.  Multi-dimensional array access
uses the chained convention of scenario 5: `matrix[i][j]` is an access
with a one-element index list whose base is the inner access.  The
`FunctionDecl` node of spec section 3 is part of the closed node set but
no surface syntax for function declarations is given by the available
grammar documents, so the statement grammar never produces it. -/

/-- Base variable types (spec section 3 type keywords). -/
inductive BaseType
  | tInt | tReal | tString | tBool | tChar
  deriving DecidableEq, Repr

/-- Binary operators. -/
inductive BinOp
  | addOp | subOp | mulOp | divOp | modOp
  | eqOp | neOp | ltOp | gtOp | leOp | geOp
  | andOp | orOp
  deriving DecidableEq, Repr

/-- Unary prefix operators. -/
inductive UnOp
  | negOp | notOp
  deriving DecidableEq, Repr

/-- Literal values.  Real literals keep their spelling: the spec core
performs no numeric computation on them. -/
inductive LitVal
  | intV (n : Nat)
  | realV (s : String)
  | strV (s : String)
  | boolV (b : Bool)
  deriving DecidableEq, Repr

/-- Expression nodes (spec section 3). -/
inductive Expr
  | lit (v : LitVal)
  | identE (name : String)
  | binary (op : BinOp) (lhs rhs : Expr)
  | unary (op : UnOp) (arg : Expr)
  | arrayAccess (base : Expr) (indices : List Expr)
  | call (callee : String) (args : List Expr)

/-- Statement nodes (spec section 3); every node records the source
line of its leading token. -/
inductive Stmt
  | varDecl (line : Nat) (btype : BaseType) (decls : List (String × List Expr))
      (init : Option Expr)
  | assign (line : Nat) (target : Expr) (value : Expr)
  | ifS (line : Nat) (cond : Expr) (thenB : List Stmt) (elseB : Option (List Stmt))
  | whileS (line : Nat) (cond : Expr) (body : List Stmt)
  | forS (line : Nat) (loopVar : String) (fromE toE : Expr) (stepE : Option Expr)
      (body : List Stmt)
  | funcDecl (line : Nat) (name : String) (params : List String) (body : List Stmt)
  | callS (line : Nat) (callee : String) (args : List Expr)
  | block (line : Nat) (body : List Stmt)

/-- The root node: a program is its statement list. -/
structure Program where
  stmts : List Stmt

/-- Source line recorded by a statement node. -/
def stmtLine : Stmt → Nat
  | .varDecl l _ _ _ => l
  | .assign l _ _ => l
  | .ifS l _ _ _ => l
  | .whileS l _ _ => l
  | .forS l _ _ _ _ _ => l
  | .funcDecl l _ _ _ => l
  | .callS l _ _ => l
  | .block l _ => l

/-- An erased token: what the parser consumes.  The keyword spelling is
erased into the kind; `sem` keeps the lexeme only for identifiers and
literals, where it is semantically relevant. -/
structure EToken where
  kind : TokenKind
  sem : String
  line : Nat
  deriving DecidableEq, Repr

/-- The semantically relevant part of a lexeme. -/
def semOf (t : Token) : String :=
  match t.kind with
  | .identTok => t.lexeme
  | .intLit => t.lexeme
  | .realLit => t.lexeme
  | .strLit => t.lexeme
  | _ => ""

/-- Erase a token to what the parser may inspect (plus, separately, its
column used only to decorate errors). -/
def eraseTok (t : Token) : EToken := ⟨t.kind, semOf t, t.line⟩

/-- One-token lookahead: the token at index `i`, end-of-input beyond
the end (the lexer always terminates the sequence with one). -/
def etk (ts : List EToken) (i : Nat) : EToken := ts.getD i ⟨.eofTok, "", 0⟩

/-- A syntactic error of the parser core: message, the set of token
kinds that would have been accepted, and the index of the offending
token (decorated with line and column by `parse`). -/
structure SynErr where
  msg : String
  expected : List TokenKind
  tokIdx : Nat
  deriving DecidableEq, Repr

/-- Numeric value of an integer literal lexeme. -/
def natOfLex (s : String) : Nat :=
  s.toList.foldl (fun a c => a * 10 + (c.toNat - 48)) 0

/-- Binary operator at a precedence level (0 lowest): logical OR,
logical AND, relational, additive, multiplicative (spec section 4.2). -/
def levelOp (lvl : Nat) (k : TokenKind) : Option BinOp :=
  if lvl = 0 then (if k = .kwOr then some .orOp else none)
  else if lvl = 1 then (if k = .kwAnd then some .andOp else none)
  else if lvl = 2 then
    (if k = .opEq then some .eqOp
     else if k = .opNe then some .neOp
     else if k = .opLt then some .ltOp
     else if k = .opGt then some .gtOp
     else if k = .opLe then some .leOp
     else if k = .opGe then some .geOp
     else none)
  else if lvl = 3 then
    (if k = .opPlus then some .addOp
     else if k = .opMinus then some .subOp
     else none)
  else
    (if k = .opStar then some .mulOp
     else if k = .opSlash then some .divOp
     else if k = .opPercent then some .modOp
     else if k = .kwMod then some .modOp
     else none)

/-- Base type denoted by a type keyword. -/
def baseTypeOf (k : TokenKind) : Option BaseType :=
  if k = .tyInt then some .tInt
  else if k = .tyReal then some .tReal
  else if k = .tyString then some .tString
  else if k = .tyBool then some .tBool
  else if k = .tyChar then some .tChar
  else none

/-- Skip one optional statement terminator (semicolons are optional). -/
def skipSemi (ts : List EToken) (i : Nat) : Nat :=
  if (etk ts i).kind = .semicolon then i + 1 else i

/-- Parsing modes of the recursive-descent machine: one mode per
grammar rule.  `binL lvl` is the layered binary-operator chain entry at
precedence level `lvl` (an expression is `binL 0`), `binRest` its
left-associative repetition; the remaining modes are unary prefixes,
primaries, array-index suffixes, call-argument lists, declarator lists,
array-dimension lists, one statement, and statement sequences up to a
set of stop kinds. -/
inductive Mode
  | binL (lvl : Nat)
  | binRest (lvl : Nat) (acc : Expr)
  | unaryM
  | primary
  | suffix (acc : Expr)
  | argsStart
  | argsRest (acc : List Expr)
  | dims (acc : List Expr)
  | declList
  | stmtM
  | stmtsM (stops : List TokenKind)

/-- Results of the parsing machine, by mode. -/
inductive Out
  | ex (e : Expr)
  | exs (es : List Expr)
  | decls (ds : List (String × List Expr))
  | st (s : Stmt)
  | sts (ss : List Stmt)

/-- The recursive-descent parser core, consuming erased tokens with
one-token lookahead and no backtracking.  The fuel argument bounds the
recursion depth and decreases on every recursive call; `parse` supplies
enough fuel that it is never exhausted on the fuel-per-token budget of
the grammar. -/
def runCore (ts : List EToken) : Nat → Mode → Nat → Except SynErr (Out × Nat)
  | 0, _, i => .error ⟨"out of fuel", [], i⟩
  | f + 1, .binL lvl, i =>
    match runCore ts f (if lvl < 4 then .binL (lvl + 1) else .unaryM) i with
    | .ok (.ex l, j) => runCore ts f (.binRest lvl l) j
    | .ok (_, j) => .error ⟨"internal", [], j⟩
    | .error e => .error e
  | f + 1, .binRest lvl acc, i =>
    match levelOp lvl (etk ts i).kind with
    | some op =>
      match runCore ts f (if lvl < 4 then .binL (lvl + 1) else .unaryM) (i + 1) with
      | .ok (.ex r, j) => runCore ts f (.binRest lvl (.binary op acc r)) j
      | .ok (_, j) => .error ⟨"internal", [], j⟩
      | .error e => .error e
    | none => .ok (.ex acc, i)
  | f + 1, .unaryM, i =>
    if (etk ts i).kind = .opMinus then
      match runCore ts f .unaryM (i + 1) with
      | .ok (.ex a, j) => .ok (.ex (.unary .negOp a), j)
      | .ok (_, j) => .error ⟨"internal", [], j⟩
      | .error e => .error e
    else if (etk ts i).kind = .kwNot then
      match runCore ts f .unaryM (i + 1) with
      | .ok (.ex a, j) => .ok (.ex (.unary .notOp a), j)
      | .ok (_, j) => .error ⟨"internal", [], j⟩
      | .error e => .error e
    else runCore ts f .primary i
  | f + 1, .primary, i =>
    match (etk ts i).kind with
    | .intLit => runCore ts f (.suffix (.lit (.intV (natOfLex (etk ts i).sem)))) (i + 1)
    | .realLit => runCore ts f (.suffix (.lit (.realV (etk ts i).sem))) (i + 1)
    | .strLit => runCore ts f (.suffix (.lit (.strV (etk ts i).sem))) (i + 1)
    | .kwTrue => runCore ts f (.suffix (.lit (.boolV true))) (i + 1)
    | .kwFalse => runCore ts f (.suffix (.lit (.boolV false))) (i + 1)
    | .identTok =>
      if (etk ts (i + 1)).kind = .lparen then
        match runCore ts f .argsStart (i + 2) with
        | .ok (.exs args, j) => runCore ts f (.suffix (.call (etk ts i).sem args)) j
        | .ok (_, j) => .error ⟨"internal", [], j⟩
        | .error e => .error e
      else runCore ts f (.suffix (.identE (etk ts i).sem)) (i + 1)
    | .lparen =>
      match runCore ts f (.binL 0) (i + 1) with
      | .ok (.ex e, j) =>
        if (etk ts j).kind = .rparen then runCore ts f (.suffix e) (j + 1)
        else .error ⟨"expected closing parenthesis", [.rparen], j⟩
      | .ok (_, j) => .error ⟨"internal", [], j⟩
      | .error e => .error e
    | _ =>
      .error ⟨"expected expression",
        [.intLit, .realLit, .strLit, .kwTrue, .kwFalse, .identTok, .lparen,
         .opMinus, .kwNot], i⟩
  | f + 1, .suffix acc, i =>
    if (etk ts i).kind = .lbracket then
      match runCore ts f (.binL 0) (i + 1) with
      | .ok (.ex e, j) =>
        if (etk ts j).kind = .rbracket then
          runCore ts f (.suffix (.arrayAccess acc [e])) (j + 1)
        else .error ⟨"expected closing bracket", [.rbracket], j⟩
      | .ok (_, j) => .error ⟨"internal", [], j⟩
      | .error e => .error e
    else .ok (.ex acc, i)
  | f + 1, .argsStart, i =>
    if (etk ts i).kind = .rparen then .ok (.exs [], i + 1)
    else
      match runCore ts f (.binL 0) i with
      | .ok (.ex e, j) => runCore ts f (.argsRest [e]) j
      | .ok (_, j) => .error ⟨"internal", [], j⟩
      | .error e => .error e
  | f + 1, .argsRest acc, i =>
    if (etk ts i).kind = .comma then
      match runCore ts f (.binL 0) (i + 1) with
      | .ok (.ex e, j) => runCore ts f (.argsRest (acc ++ [e])) j
      | .ok (_, j) => .error ⟨"internal", [], j⟩
      | .error e => .error e
    else if (etk ts i).kind = .rparen then .ok (.exs acc, i + 1)
    else .error ⟨"expected comma or closing parenthesis", [.comma, .rparen], i⟩
  | f + 1, .dims acc, i =>
    if (etk ts i).kind = .lbracket then
      match runCore ts f (.binL 0) (i + 1) with
      | .ok (.ex e, j) =>
        if (etk ts j).kind = .rbracket then runCore ts f (.dims (acc ++ [e])) (j + 1)
        else .error ⟨"expected closing bracket", [.rbracket], j⟩
      | .ok (_, j) => .error ⟨"internal", [], j⟩
      | .error e => .error e
    else .ok (.exs acc, i)
  | f + 1, .declList, i =>
    if (etk ts i).kind = .identTok then
      match runCore ts f (.dims []) (i + 1) with
      | .ok (.exs ds, j) =>
        if (etk ts j).kind = .comma then
          match runCore ts f .declList (j + 1) with
          | .ok (.decls rest, k) => .ok (.decls (((etk ts i).sem, ds) :: rest), k)
          | .ok (_, k) => .error ⟨"internal", [], k⟩
          | .error e => .error e
        else .ok (.decls [((etk ts i).sem, ds)], j)
      | .ok (_, j) => .error ⟨"internal", [], j⟩
      | .error e => .error e
    else .error ⟨"expected identifier", [.identTok], i⟩
  | f + 1, .stmtM, i =>
    match baseTypeOf (etk ts i).kind with
    | some bt =>
      match runCore ts f .declList (i + 1) with
      | .ok (.decls ds, j) =>
        if (etk ts j).kind = .opEq then
          match runCore ts f (.binL 0) (j + 1) with
          | .ok (.ex v, k) =>
            .ok (.st (.varDecl (etk ts i).line bt ds (some v)), skipSemi ts k)
          | .ok (_, k) => .error ⟨"internal", [], k⟩
          | .error e => .error e
        else .ok (.st (.varDecl (etk ts i).line bt ds none), skipSemi ts j)
      | .ok (_, j) => .error ⟨"internal", [], j⟩
      | .error e => .error e
    | none =>
      match (etk ts i).kind with
      | .kwIf =>
        match runCore ts f (.binL 0) (i + 1) with
        | .ok (.ex c, j) =>
          if (etk ts j).kind = .kwThen then
            match runCore ts f (.stmtsM [.kwElse, .kwEndIf]) (j + 1) with
            | .ok (.sts thenB, k) =>
              if (etk ts k).kind = .kwElse then
                match runCore ts f (.stmtsM [.kwEndIf]) (k + 1) with
                | .ok (.sts elseB, m) =>
                  if (etk ts m).kind = .kwEndIf then
                    .ok (.st (.ifS (etk ts i).line c thenB (some elseB)),
                      skipSemi ts (m + 1))
                  else .error ⟨"missing conditional terminator END_IF / FIN_SI",
                    [.kwEndIf], m⟩
                | .ok (_, m) => .error ⟨"internal", [], m⟩
                | .error e => .error e
              else if (etk ts k).kind = .kwEndIf then
                .ok (.st (.ifS (etk ts i).line c thenB none), skipSemi ts (k + 1))
              else .error ⟨"missing conditional terminator END_IF / FIN_SI",
                [.kwElse, .kwEndIf], k⟩
            | .ok (_, k) => .error ⟨"internal", [], k⟩
            | .error e => .error e
          else .error ⟨"expected THEN / ENTONCES", [.kwThen], j⟩
        | .ok (_, j) => .error ⟨"internal", [], j⟩
        | .error e => .error e
      | .kwWhile =>
        match runCore ts f (.binL 0) (i + 1) with
        | .ok (.ex c, j) =>
          if (etk ts j).kind = .kwDo then
            match runCore ts f (.stmtsM [.kwEndWhile]) (j + 1) with
            | .ok (.sts body, k) =>
              if (etk ts k).kind = .kwEndWhile then
                .ok (.st (.whileS (etk ts i).line c body), skipSemi ts (k + 1))
              else .error ⟨"missing loop terminator END_WHILE / FIN_MIENTRAS",
                [.kwEndWhile], k⟩
            | .ok (_, k) => .error ⟨"internal", [], k⟩
            | .error e => .error e
          else .error ⟨"expected DO / HACER", [.kwDo], j⟩
        | .ok (_, j) => .error ⟨"internal", [], j⟩
        | .error e => .error e
      | .kwFor =>
        if (etk ts (i + 1)).kind = .identTok then
          if (etk ts (i + 2)).kind = .opEq ∨ (etk ts (i + 2)).kind = .opAssign then
            match runCore ts f (.binL 0) (i + 3) with
            | .ok (.ex fromE, j) =>
              if (etk ts j).kind = .kwTo then
                match runCore ts f (.binL 0) (j + 1) with
                | .ok (.ex toE, k) =>
                  (fun (stepE : Option Expr) (m : Nat) =>
                    if (etk ts m).kind = .kwDo then
                      match runCore ts f (.stmtsM [.kwEndFor]) (m + 1) with
                      | .ok (.sts body, q) =>
                        if (etk ts q).kind = .kwEndFor then
                          .ok (.st (.forS (etk ts i).line (etk ts (i + 1)).sem
                            fromE toE stepE body), skipSemi ts (q + 1))
                        else .error ⟨"missing loop terminator END_FOR / FIN_PARA",
                          [.kwEndFor], q⟩
                      | .ok (_, q) => .error ⟨"internal", [], q⟩
                      | .error e => .error e
                    else .error ⟨"expected DO / HACER", [.kwDo], m⟩ :
                      Option Expr → Nat → Except SynErr (Out × Nat))
                  |> (fun forTail =>
                    if (etk ts k).kind = .kwStep then
                      match runCore ts f (.binL 0) (k + 1) with
                      | .ok (.ex stepE, m) => forTail (some stepE) m
                      | .ok (_, m) => .error ⟨"internal", [], m⟩
                      | .error e => .error e
                    else forTail none k)
                | .ok (_, k) => .error ⟨"internal", [], k⟩
                | .error e => .error e
              else .error ⟨"expected TO / HASTA", [.kwTo], j⟩
            | .ok (_, j) => .error ⟨"internal", [], j⟩
            | .error e => .error e
          else .error ⟨"expected assignment of the loop variable",
            [.opEq, .opAssign], i + 2⟩
        else .error ⟨"expected loop variable", [.identTok], i + 1⟩
      | .kwBegin =>
        match runCore ts f (.stmtsM [.kwEnd]) (i + 1) with
        | .ok (.sts body, k) =>
          if (etk ts k).kind = .kwEnd then
            .ok (.st (.block (etk ts i).line body), skipSemi ts (k + 1))
          else .error ⟨"missing block terminator END / FIN", [.kwEnd], k⟩
        | .ok (_, k) => .error ⟨"internal", [], k⟩
        | .error e => .error e
      | .lbrace =>
        match runCore ts f (.stmtsM [.rbrace]) (i + 1) with
        | .ok (.sts body, k) =>
          if (etk ts k).kind = .rbrace then
            .ok (.st (.block (etk ts i).line body), skipSemi ts (k + 1))
          else .error ⟨"missing closing brace", [.rbrace], k⟩
        | .ok (_, k) => .error ⟨"internal", [], k⟩
        | .error e => .error e
      | .identTok =>
        if (etk ts (i + 1)).kind = .lparen then
          match runCore ts f .argsStart (i + 2) with
          | .ok (.exs args, j) =>
            .ok (.st (.callS (etk ts i).line (etk ts i).sem args), skipSemi ts j)
          | .ok (_, j) => .error ⟨"internal", [], j⟩
          | .error e => .error e
        else
          match runCore ts f (.suffix (.identE (etk ts i).sem)) (i + 1) with
          | .ok (.ex target, j) =>
            if (etk ts j).kind = .opEq ∨ (etk ts j).kind = .opAssign then
              match runCore ts f (.binL 0) (j + 1) with
              | .ok (.ex v, k) =>
                .ok (.st (.assign (etk ts i).line target v), skipSemi ts k)
              | .ok (_, k) => .error ⟨"internal", [], k⟩
              | .error e => .error e
            else .error ⟨"expected assignment operator", [.opEq, .opAssign], j⟩
          | .ok (_, j) => .error ⟨"internal", [], j⟩
          | .error e => .error e
      | _ =>
        .error ⟨"expected statement",
          [.tyInt, .tyReal, .tyString, .tyBool, .tyChar, .kwIf, .kwWhile,
           .kwFor, .kwBegin, .lbrace, .identTok], i⟩
  | f + 1, .stmtsM stops, i =>
    if (etk ts i).kind = .eofTok ∨ (etk ts i).kind ∈ stops then .ok (.sts [], i)
    else
      match runCore ts f .stmtM i with
      | .ok (.st s, j) =>
        match runCore ts f (.stmtsM stops) j with
        | .ok (.sts ss, k) => .ok (.sts (s :: ss), k)
        | .ok (_, k) => .error ⟨"internal", [], k⟩
        | .error e => .error e
      | .ok (_, j) => .error ⟨"internal", [], j⟩
      | .error e => .error e

/-- Fuel budget: the recursion depth of the grammar is bounded by a
constant per consumed token. -/
def parserFuel (n : Nat) : Nat := 16 * (n + 1)

/-- Kind of a front-end error (spec section 7). -/
inductive PEKind
  | lexicalE
  | syntacticE
  deriving DecidableEq, Repr

/-- The externally visible error: message, 1-based line and column,
and the token kinds that would have been accepted. -/
structure PError where
  kind : PEKind
  message : String
  line : Nat
  col : Nat
  expected : List TokenKind
  deriving DecidableEq, Repr

/-- User-facing text of a lexical failure. -/
def lexMessage : LexErrKind → String
  | .badChar _ => "unrecognized character"
  | .unterminatedString => "unterminated string literal"
  | .outOfFuel => "internal"

/-- Decorate a parser-core error with the line and column of the
offending token. -/
def fillPos (toks : List Token) (e : SynErr) : PError :=
  let t := toks.getD e.tokIdx ⟨.eofTok, "", 0, 0, 0⟩
  ⟨.syntacticE, e.msg, t.line, t.col, e.expected⟩

/-- The entire external surface of the core (spec section 6):
`parse : String → Program or PError`.  Lexing feeds erased tokens to
the parser core; parser-core errors are decorated with the line and
column of the offending token. -/
def parse (src : String) : Except PError Program :=
  match lex src with
  | .error e => .error ⟨.lexicalE, lexMessage e.kind, e.line, e.col, []⟩
  | .ok toks =>
    match runCore (toks.map eraseTok) (parserFuel toks.length) (.stmtsM []) 0 with
    | .error ec => .error (fillPos toks ec)
    | .ok (.sts ss, j) =>
      if (etk (toks.map eraseTok) j).kind = .eofTok then .ok ⟨ss⟩
      else .error (fillPos toks ⟨"expected end of input", [.eofTok], j⟩)
    | .ok (_, j) => .error (fillPos toks ⟨"internal", [], j⟩)

/-- Positional invariant of a token produced by the lexer loop running
on the suffix `cs` of the source, at absolute offset `pos` and current
line `line`: the token lies at or beyond `pos`; its recorded line is
the current line plus the newlines strictly before it; a less-than
token is never immediately followed by a minus character (greedy
arrow recognition); a minus token sits on a minus character. -/
def tokInv (cs : List Char) (line pos : Nat) (t : Token) : Prop :=
  pos ≤ t.pos ∧
  t.line = line + (cs.take (t.pos - pos)).count '\n' ∧
  (t.kind = .opLt → (cs.drop (t.pos - pos))[1]? ≠ some '-') ∧
  (t.kind = .opMinus → (cs.drop (t.pos - pos))[0]? = some '-')

end AA

/-! ## Theorems -/

namespace AA

theorem except_map_ok {ε α β : Type} {f : α → β} {x : Except ε α} {y : β} :
    x.map f = .ok y ↔ ∃ a, x = .ok a ∧ f a = y := by
  cases x <;> simp [Except.map]

theorem except_map_error {ε α β : Type} {f : α → β} {x : Except ε α} {e : ε} :
    x.map f = .error e ↔ x = .error e := by
  cases x <;> simp [Except.map]

theorem getLast?_cons_of_some {α : Type} {a : α} {l : List α} {t : α}
    (h : l.getLast? = some t) : (a :: l).getLast? = some t := by
  cases l with
  | nil => simp at h
  | cons b bs => rwa [List.getLast?_cons_cons]

theorem count_nl_takeWhile (p : Char → Bool) (l : List Char) (hp : p '\n' = false) :
    (l.takeWhile p).count '\n' = 0 := by
  rw [List.count_eq_zero]
  intro hmem
  have hpn := List.mem_takeWhile_imp hmem
  rw [hp] at hpn
  exact absurd hpn (by simp)

theorem singleOpKind_ne_lt (c : Char) : singleOpKind c ≠ some .opLt := by
  intro h
  unfold singleOpKind at h
  cases hf : singleOps.find? (fun p => p.1 == c) with
  | none => rw [hf] at h; exact Option.noConfusion h
  | some p =>
    rw [hf] at h
    have hk : p.2 = TokenKind.opLt := Option.some.inj h
    have hmem := List.mem_of_find?_eq_some hf
    fin_cases hmem <;> simp_all

theorem singleOpKind_minus {c : Char} (h : singleOpKind c = some .opMinus) : c = '-' := by
  unfold singleOpKind at h
  cases hf : singleOps.find? (fun p => p.1 == c) with
  | none => rw [hf] at h; exact Option.noConfusion h
  | some p =>
    rw [hf] at h
    have hk : p.2 = TokenKind.opMinus := Option.some.inj h
    have hpred := List.find?_some hf
    have hmem := List.mem_of_find?_eq_some hf
    fin_cases hmem <;> simp_all
    exact hpred.symm

theorem tokInv_shift {p r : List Char} {line pos : Nat} {t : Token}
    (h : tokInv r (line + p.count '\n') (pos + p.length) t) :
    tokInv (p ++ r) line pos t := by
  obtain ⟨h1, h2, h3, h4⟩ := h
  have hoff : t.pos - pos = p.length + (t.pos - (pos + p.length)) := by omega
  refine ⟨by omega, ?_, ?_, ?_⟩
  · rw [hoff, List.take_append, List.count_append]
    omega
  · intro hk
    rw [hoff, List.drop_append]
    exact h3 hk
  · intro hk
    rw [hoff, List.drop_append]
    exact h4 hk

theorem tokInv_build {p r : List Char} {line pos : Nat} {tok : Token}
    {ts' : List Token}
    (htok : tokInv (p ++ r) line pos tok)
    (hts' : ∀ t ∈ ts', tokInv r (line + p.count '\n') (pos + p.length) t) :
    ∀ t ∈ tok :: ts', tokInv (p ++ r) line pos t := by
  intro t ht
  rcases List.mem_cons.mp ht with h | h
  · exact h ▸ htok
  · exact tokInv_shift (hts' t h)

theorem tokInv_emit {cs : List Char} {line pos col : Nat} {k : TokenKind} {lexm : String}
    (h3 : k = .opLt → cs[1]? ≠ some '-')
    (h4 : k = .opMinus → cs[0]? = some '-') :
    tokInv cs line pos ⟨k, lexm, line, col, pos⟩ := by
  refine ⟨Nat.le_refl _, by simp, ?_, ?_⟩
  · intro hk
    simpa using h3 hk
  · intro hk
    simpa using h4 hk

theorem ne_nl_of_space {c : Char} (h : isSpaceChar c = true) : c ≠ '\n' := by
  intro he; subst he; exact absurd h (by decide)

theorem ne_nl_of_identStart {c : Char} (h : isIdentStart c = true) : c ≠ '\n' := by
  intro he; subst he; exact absurd h (by decide)

theorem ne_nl_of_digit {c : Char} (h : c.isDigit = true) : c ≠ '\n' := by
  intro he; subst he; exact absurd h (by decide)

theorem count_nl_cons {c : Char} {l : List Char} (hc : c ≠ '\n') (hl : l.count '\n' = 0) :
    (c :: l).count '\n' = 0 := by
  simp [List.count_cons, hl]
  intro he
  exact hc he

theorem count_nl_append {l₁ l₂ : List Char} (h1 : l₁.count '\n' = 0) (h2 : l₂.count '\n' = 0) :
    (l₁ ++ l₂).count '\n' = 0 := by
  simp [List.count_append, h1, h2]

theorem tokInv_stepped {p r : List Char} {line line2 pos pos2 : Nat} {t : Token}
    (hline : line2 = line + p.count '\n') (hpos : pos2 = pos + p.length)
    (h : tokInv r line2 pos2 t) :
    tokInv (p ++ r) line pos t := by
  apply tokInv_shift
  rw [← hline, ← hpos]
  exact h

theorem count_nl_one {a : Char} (ha : a ≠ '\n') : ([a].count '\n') = 0 :=
  count_nl_cons ha (by simp)

theorem count_nl_pair {a b : Char} (ha : a ≠ '\n') (hb : b ≠ '\n') :
    ([a, b].count '\n') = 0 :=
  count_nl_cons ha (count_nl_cons hb (by simp))

theorem tokInv_congr2 {cs : List Char} {line line2 pos pos2 : Nat} {t : Token}
    (hl : line = line2) (hp : pos = pos2)
    (h : tokInv cs line2 pos2 t) : tokInv cs line pos t := by
  rw [hl, hp]; exact h

theorem tokInv_emit_plain {cs : List Char} {line pos col : Nat} {k : TokenKind} {lexm : String}
    (h3 : k ≠ .opLt) (h4 : k ≠ .opMinus) :
    tokInv cs line pos ⟨k, lexm, line, col, pos⟩ :=
  tokInv_emit (fun hk => absurd hk h3) (fun hk => absurd hk h4)


theorem kwLookup_done {w : String} {k : TokenKind} (h : kwLookup w = some k) :
    k ≠ .opLt ∧ k ≠ .opMinus := by
  unfold kwLookup at h
  cases hf : keywordTable.find? (fun p => p.1 = w) with
  | none => rw [hf] at h; exact Option.noConfusion h
  | some p =>
    rw [hf] at h
    have hk : p.2 = k := Option.some.inj h
    have hmem := List.mem_of_find?_eq_some hf
    subst hk
    fin_cases hmem <;> exact ⟨by decide, by decide⟩

theorem keywordKind_ne (w : List Char) :
    keywordKind w ≠ .opLt ∧ keywordKind w ≠ .opMinus := by
  unfold keywordKind
  cases hk : kwLookup (String.mk (w.map Char.toUpper)) with
  | none => exact ⟨by decide, by decide⟩
  | some k => exact kwLookup_done hk

theorem lexLoop_inv :
    ∀ (fuel : Nat) (cs : List Char) (line col pos : Nat) (ts : List Token),
    lexLoop fuel cs line col pos = .ok ts → ∀ t ∈ ts, tokInv cs line pos t := by
  intro fuel
  induction fuel with
  | zero => intro cs line col pos ts h; exact Except.noConfusion h
  | succ f ih =>
    intro cs line col pos ts h
    match cs with
    | [] =>
      simp only [lexLoop] at h
      have hts : ts = [⟨.eofTok, "", line, col, pos⟩] := (Except.ok.inj h).symm
      subst hts
      intro t ht
      have : t = ⟨.eofTok, "", line, col, pos⟩ := by simpa using ht
      subst this
      exact tokInv_emit_plain (by decide) (by decide)
    | c :: rest =>
      simp only [lexLoop] at h
      by_cases hc1 : c = '\n'
      · rw [if_pos hc1] at h
        subst hc1
        intro t ht
        exact tokInv_stepped (p := ['\n']) (by simp) (by simp)
          (ih _ _ _ _ _ h t ht)
      · rw [if_neg hc1] at h
        by_cases hc2 : isSpaceChar c = true
        · rw [if_pos hc2] at h
          intro t ht
          exact tokInv_stepped (p := [c])
            (by simp [count_nl_cons (ne_nl_of_space hc2)]) (by simp)
            (ih _ _ _ _ _ h t ht)
        · rw [if_neg hc2] at h
          by_cases hc3 : c = '#'
          · rw [if_pos hc3] at h
            intro t ht
            have hcs : c :: rest =
                (c :: rest.takeWhile (fun x => !(x == '\n'))) ++
                  rest.dropWhile (fun x => !(x == '\n')) := by
              rw [List.cons_append, List.takeWhile_append_dropWhile]
            rw [hcs]
            refine tokInv_stepped ?_ ?_ (ih _ _ _ _ _ h t ht)
            · have hcnl : c ≠ '\n' := by rw [hc3]; decide
              simp [count_nl_cons hcnl
                (count_nl_takeWhile (fun x => !(x == '\n')) rest (by decide))]
            · simp
              omega
          · rw [if_neg hc3] at h
            by_cases hc4 : isIdentStart c = true
            · rw [if_pos hc4] at h
              rw [except_map_ok] at h
              obtain ⟨ts', hrec, hts⟩ := h
              subst hts
              have hcs : c :: rest =
                  (c :: rest.takeWhile isWordChar) ++ rest.dropWhile isWordChar := by
                rw [List.cons_append, List.takeWhile_append_dropWhile]
              rw [hcs]
              have hcount : ((c :: rest.takeWhile isWordChar).count '\n') = 0 :=
                count_nl_cons (ne_nl_of_identStart hc4)
                  (count_nl_takeWhile isWordChar rest (by decide))
              refine tokInv_build ?_ ?_
              · exact tokInv_emit_plain (keywordKind_ne _).1 (keywordKind_ne _).2
              · intro t ht
                refine tokInv_congr2 ?_ ?_ (ih _ _ _ _ _ hrec t ht)
                · simp [hcount]
                · simp
                  omega
            · rw [if_neg hc4] at h
              by_cases hc5 : c.isDigit = true
              · rw [if_pos hc5] at h
                split at h
                · rename_i p0 p1 rest3 heq
                  by_cases hpd : p0 = '.' ∧ p1.isDigit = true
                  · rw [if_pos hpd] at h
                    obtain ⟨hp0, hp1⟩ := hpd
                    rw [except_map_ok] at h
                    obtain ⟨ts', hrec, hts⟩ := h
                    subst hts
                    have hrest : rest = rest.takeWhile Char.isDigit ++ (p0 :: p1 :: rest3) := by
                      conv_lhs => rw [← List.takeWhile_append_dropWhile (p := Char.isDigit)
                        (l := rest)]
                      rw [heq]
                    have hrest3 : rest3 =
                        rest3.takeWhile Char.isDigit ++ rest3.dropWhile Char.isDigit :=
                      (List.takeWhile_append_dropWhile _ _).symm
                    have hcs : c :: rest =
                        (c :: (rest.takeWhile Char.isDigit ++
                          p0 :: p1 :: rest3.takeWhile Char.isDigit)) ++
                          rest3.dropWhile Char.isDigit := by
                      conv_lhs => rw [hrest, hrest3]
                      simp
                    rw [hcs]
                    have hcount : (c :: (rest.takeWhile Char.isDigit ++
                        p0 :: p1 :: rest3.takeWhile Char.isDigit)).count '\n' = 0 := by
                      refine count_nl_cons (ne_nl_of_digit hc5)
                        (count_nl_append (count_nl_takeWhile Char.isDigit rest (by decide)) ?_)
                      refine count_nl_cons ?_ (count_nl_cons (ne_nl_of_digit hp1)
                        (count_nl_takeWhile Char.isDigit rest3 (by decide)))
                      rw [hp0]; decide
                    refine tokInv_build ?_ ?_
                    · exact tokInv_emit_plain (by decide) (by decide)
                    · intro t ht
                      refine tokInv_congr2 ?_ ?_ (ih _ _ _ _ _ hrec t ht)
                      · simp [hcount]
                      · simp
                        omega
                  · rw [if_neg hpd] at h
                    rw [except_map_ok] at h
                    obtain ⟨ts', hrec, hts⟩ := h
                    subst hts
                    have hcs : c :: rest =
                        (c :: rest.takeWhile Char.isDigit) ++ rest.dropWhile Char.isDigit := by
                      rw [List.cons_append, List.takeWhile_append_dropWhile]
                    rw [hcs]
                    have hcount : (c :: rest.takeWhile Char.isDigit).count '\n' = 0 :=
                      count_nl_cons (ne_nl_of_digit hc5)
                        (count_nl_takeWhile Char.isDigit rest (by decide))
                    refine tokInv_build ?_ ?_
                    · exact tokInv_emit_plain (by decide) (by decide)
                    · intro t ht
                      refine tokInv_congr2 ?_ ?_ (ih _ _ _ _ _ hrec t ht)
                      · simp [hcount]
                      · simp
                        omega
                · rw [except_map_ok] at h
                  obtain ⟨ts', hrec, hts⟩ := h
                  subst hts
                  have hcs : c :: rest =
                      (c :: rest.takeWhile Char.isDigit) ++ rest.dropWhile Char.isDigit := by
                    rw [List.cons_append, List.takeWhile_append_dropWhile]
                  rw [hcs]
                  have hcount : (c :: rest.takeWhile Char.isDigit).count '\n' = 0 :=
                    count_nl_cons (ne_nl_of_digit hc5)
                      (count_nl_takeWhile Char.isDigit rest (by decide))
                  refine tokInv_build ?_ ?_
                  · exact tokInv_emit_plain (by decide) (by decide)
                  · intro t ht
                    refine tokInv_congr2 ?_ ?_ (ih _ _ _ _ _ hrec t ht)
                    · simp [hcount]
                    · simp
                      omega
              · rw [if_neg hc5] at h
                by_cases hc6 : c = '"' ∨ c = '\''
                · rw [if_pos hc6] at h
                  split at h
                  · rename_i q rest3 heq
                    by_cases hq : q = c
                    · rw [if_pos hq] at h
                      rw [except_map_ok] at h
                      obtain ⟨ts', hrec, hts⟩ := h
                      subst hts
                      have hrest : rest =
                          rest.takeWhile (fun x => !(x == c) && !(x == '\n')) ++
                            (q :: rest3) := by
                        conv_lhs => rw [← List.takeWhile_append_dropWhile
                          (p := fun x => !(x == c) && !(x == '\n')) (l := rest)]
                        rw [heq]
                      have hcs : c :: rest =
                          (c :: (rest.takeWhile (fun x => !(x == c) && !(x == '\n')) ++ [q])) ++
                            rest3 := by
                        conv_lhs => rw [hrest]
                        simp
                      rw [hcs]
                      have hcnl : c ≠ '\n' := by
                        rcases hc6 with h6 | h6 <;> (rw [h6]; decide)
                      have hcount : (c :: (rest.takeWhile
                          (fun x => !(x == c) && !(x == '\n')) ++ [q])).count '\n' = 0 := by
                        refine count_nl_cons hcnl (count_nl_append
                          (count_nl_takeWhile (fun x => !(x == c) && !(x == '\n')) rest
                            (by simp))
                          (count_nl_cons (by rw [hq]; exact hcnl) (by simp)))
                      refine tokInv_build ?_ ?_
                      · exact tokInv_emit_plain (by decide) (by decide)
                      · intro t ht
                        refine tokInv_congr2 ?_ ?_ (ih _ _ _ _ _ hrec t ht)
                        · simp [hcount]
                        · simp
                          omega
                    · rw [if_neg hq] at h
                      exact Except.noConfusion h
                  · exact Except.noConfusion h
                · rw [if_neg hc6] at h
                  by_cases hc7 : c = '<'
                  · rw [if_pos hc7] at h
                    have hcnl : c ≠ '\n' := by rw [hc7]; decide
                    split at h
                    · rename_i r0 rest2
                      by_cases hr0 : r0 = '-'
                      · rw [if_pos hr0] at h
                        rw [except_map_ok] at h
                        obtain ⟨ts', hrec, hts⟩ := h
                        subst hts
                        refine tokInv_build (p := [c, r0]) ?_ ?_
                        · exact tokInv_emit_plain (by decide) (by decide)
                        · intro t ht
                          refine tokInv_congr2 ?_ ?_ (ih _ _ _ _ _ hrec t ht)
                          · have hb : r0 ≠ '\n' := by rw [hr0]; decide
                            simp [count_nl_pair hcnl hb]
                          · simp
                      · rw [if_neg hr0] at h
                        by_cases hr1 : r0 = '='
                        · rw [if_pos hr1] at h
                          rw [except_map_ok] at h
                          obtain ⟨ts', hrec, hts⟩ := h
                          subst hts
                          refine tokInv_build (p := [c, r0]) ?_ ?_
                          · exact tokInv_emit_plain (by decide) (by decide)
                          · intro t ht
                            refine tokInv_congr2 ?_ ?_ (ih _ _ _ _ _ hrec t ht)
                            · have hb : r0 ≠ '\n' := by rw [hr1]; decide
                              simp [count_nl_pair hcnl hb]
                            · simp
                        · rw [if_neg hr1] at h
                          by_cases hr2 : r0 = '>'
                          · rw [if_pos hr2] at h
                            rw [except_map_ok] at h
                            obtain ⟨ts', hrec, hts⟩ := h
                            subst hts
                            refine tokInv_build (p := [c, r0]) ?_ ?_
                            · exact tokInv_emit_plain (by decide) (by decide)
                            · intro t ht
                              refine tokInv_congr2 ?_ ?_ (ih _ _ _ _ _ hrec t ht)
                              · have hb : r0 ≠ '\n' := by rw [hr2]; decide
                                simp [count_nl_pair hcnl hb]
                              · simp
                          · rw [if_neg hr2] at h
                            rw [except_map_ok] at h
                            obtain ⟨ts', hrec, hts⟩ := h
                            subst hts
                            refine tokInv_build (p := [c]) ?_ ?_
                            · refine tokInv_emit ?_ (fun hk => absurd hk (by decide))
                              intro _
                              simpa using hr0
                            · intro t ht
                              refine tokInv_congr2 ?_ ?_ (ih _ _ _ _ _ hrec t ht)
                              · simp [count_nl_one hcnl]
                              · simp
                    · rw [except_map_ok] at h
                      obtain ⟨ts', hrec, hts⟩ := h
                      subst hts
                      refine tokInv_build (p := [c]) ?_ ?_
                      · refine tokInv_emit ?_ (fun hk => absurd hk (by decide))
                        intro _
                        simp
                      · intro t ht
                        refine tokInv_congr2 ?_ ?_ (ih _ _ _ _ _ hrec t ht)
                        · simp [count_nl_one hcnl]
                        · simp
                  · rw [if_neg hc7] at h
                    by_cases hc8 : c = '>'
                    · rw [if_pos hc8] at h
                      have hcnl : c ≠ '\n' := by rw [hc8]; decide
                      split at h
                      · rename_i r0 rest2
                        by_cases hr0 : r0 = '='
                        · rw [if_pos hr0] at h
                          rw [except_map_ok] at h
                          obtain ⟨ts', hrec, hts⟩ := h
                          subst hts
                          refine tokInv_build (p := [c, r0]) ?_ ?_
                          · exact tokInv_emit_plain (by decide) (by decide)
                          · intro t ht
                            refine tokInv_congr2 ?_ ?_ (ih _ _ _ _ _ hrec t ht)
                            · have hb : r0 ≠ '\n' := by rw [hr0]; decide
                              simp [count_nl_pair hcnl hb]
                            · simp
                        · rw [if_neg hr0] at h
                          rw [except_map_ok] at h
                          obtain ⟨ts', hrec, hts⟩ := h
                          subst hts
                          refine tokInv_build (p := [c]) ?_ ?_
                          · exact tokInv_emit_plain (by decide) (by decide)
                          · intro t ht
                            refine tokInv_congr2 ?_ ?_ (ih _ _ _ _ _ hrec t ht)
                            · simp [count_nl_one hcnl]
                            · simp
                      · rw [except_map_ok] at h
                        obtain ⟨ts', hrec, hts⟩ := h
                        subst hts
                        refine tokInv_build (p := [c]) ?_ ?_
                        · exact tokInv_emit_plain (by decide) (by decide)
                        · intro t ht
                          refine tokInv_congr2 ?_ ?_ (ih _ _ _ _ _ hrec t ht)
                          · simp [count_nl_one hcnl]
                          · simp
                    · rw [if_neg hc8] at h
                      by_cases hc9 : c = '!'
                      · rw [if_pos hc9] at h
                        have hcnl : c ≠ '\n' := by rw [hc9]; decide
                        split at h
                        · rename_i r0 rest2
                          by_cases hr0 : r0 = '='
                          · rw [if_pos hr0] at h
                            rw [except_map_ok] at h
                            obtain ⟨ts', hrec, hts⟩ := h
                            subst hts
                            refine tokInv_build (p := [c, r0]) ?_ ?_
                            · exact tokInv_emit_plain (by decide) (by decide)
                            · intro t ht
                              refine tokInv_congr2 ?_ ?_ (ih _ _ _ _ _ hrec t ht)
                              · have hb : r0 ≠ '\n' := by rw [hr0]; decide
                                simp [count_nl_pair hcnl hb]
                              · simp
                          · rw [if_neg hr0] at h
                            exact Except.noConfusion h
                        · exact Except.noConfusion h
                      · rw [if_neg hc9] at h
                        by_cases hc10 : c = '🡨'
                        · rw [if_pos hc10] at h
                          rw [except_map_ok] at h
                          obtain ⟨ts', hrec, hts⟩ := h
                          subst hts
                          refine tokInv_build (p := [c]) ?_ ?_
                          · exact tokInv_emit_plain (by decide) (by decide)
                          · intro t ht
                            refine tokInv_congr2 ?_ ?_ (ih _ _ _ _ _ hrec t ht)
                            · have ha : c ≠ '\n' := by rw [hc10]; decide
                              simp [count_nl_one ha]
                            · simp
                        · rw [if_neg hc10] at h
                          split at h
                          · rename_i k hsk
                            rw [except_map_ok] at h
                            obtain ⟨ts', hrec, hts⟩ := h
                            subst hts
                            have hcnl : c ≠ '\n' := by
                              intro he
                              rw [he] at hsk
                              have : (singleOpKind '\n').isSome = true := by
                                rw [hsk]; rfl
                              exact absurd this (by decide)
                            refine tokInv_build (p := [c]) ?_ ?_
                            · refine tokInv_emit ?_ ?_
                              · intro hk
                                exact absurd (hk ▸ hsk) (singleOpKind_ne_lt c)
                              · intro hk
                                have hcm : c = '-' := singleOpKind_minus (hk ▸ hsk)
                                simp [hcm]
                            · intro t ht
                              refine tokInv_congr2 ?_ ?_ (ih _ _ _ _ _ hrec t ht)
                              · simp [count_nl_one hcnl]
                              · simp
                          · exact Except.noConfusion h


theorem eof_step {f : Nat} {cs2 : List Char} {l2 c2 p2 : Nat} {tok : Token}
    {ts : List Token}
    (IH : ∀ cs line col pos ts, lexLoop f cs line col pos = .ok ts →
      ∃ t, ts.getLast? = some t ∧ t.kind = .eofTok)
    (h : (lexLoop f cs2 l2 c2 p2).map (fun ts' => tok :: ts') = .ok ts) :
    ∃ t, ts.getLast? = some t ∧ t.kind = .eofTok := by
  rw [except_map_ok] at h
  obtain ⟨ts', hrec, hts⟩ := h
  subst hts
  obtain ⟨t, hlast, hkind⟩ := IH _ _ _ _ _ hrec
  exact ⟨t, getLast?_cons_of_some hlast, hkind⟩

theorem lexLoop_eof :
    ∀ (fuel : Nat) (cs : List Char) (line col pos : Nat) (ts : List Token),
    lexLoop fuel cs line col pos = .ok ts →
    ∃ t, ts.getLast? = some t ∧ t.kind = .eofTok := by
  intro fuel
  induction fuel with
  | zero => intro cs line col pos ts h; exact Except.noConfusion h
  | succ f ih =>
    intro cs line col pos ts h
    match cs with
    | [] =>
      simp only [lexLoop] at h
      have hts : ts = [⟨.eofTok, "", line, col, pos⟩] := (Except.ok.inj h).symm
      subst hts
      exact ⟨⟨.eofTok, "", line, col, pos⟩, by simp, rfl⟩
    | c :: rest =>
      simp only [lexLoop] at h
      by_cases hc1 : c = '\n'
      · rw [if_pos hc1] at h; exact ih _ _ _ _ _ h
      · rw [if_neg hc1] at h
        by_cases hc2 : isSpaceChar c = true
        · rw [if_pos hc2] at h; exact ih _ _ _ _ _ h
        · rw [if_neg hc2] at h
          by_cases hc3 : c = '#'
          · rw [if_pos hc3] at h; exact ih _ _ _ _ _ h
          · rw [if_neg hc3] at h
            by_cases hc4 : isIdentStart c = true
            · rw [if_pos hc4] at h; exact eof_step ih h
            · rw [if_neg hc4] at h
              by_cases hc5 : c.isDigit = true
              · rw [if_pos hc5] at h
                split at h
                · rename_i p0 p1 rest3 heq
                  by_cases hpd : p0 = '.' ∧ p1.isDigit = true
                  · rw [if_pos hpd] at h; exact eof_step ih h
                  · rw [if_neg hpd] at h; exact eof_step ih h
                · exact eof_step ih h
              · rw [if_neg hc5] at h
                by_cases hc6 : c = '"' ∨ c = '\''
                · rw [if_pos hc6] at h
                  split at h
                  · rename_i q rest3 heq
                    by_cases hq : q = c
                    · rw [if_pos hq] at h; exact eof_step ih h
                    · rw [if_neg hq] at h; exact Except.noConfusion h
                  · exact Except.noConfusion h
                · rw [if_neg hc6] at h
                  by_cases hc7 : c = '<'
                  · rw [if_pos hc7] at h
                    split at h
                    · rename_i r0 rest2
                      by_cases hr0 : r0 = '-'
                      · rw [if_pos hr0] at h; exact eof_step ih h
                      · rw [if_neg hr0] at h
                        by_cases hr1 : r0 = '='
                        · rw [if_pos hr1] at h; exact eof_step ih h
                        · rw [if_neg hr1] at h
                          by_cases hr2 : r0 = '>'
                          · rw [if_pos hr2] at h; exact eof_step ih h
                          · rw [if_neg hr2] at h; exact eof_step ih h
                    · exact eof_step ih h
                  · rw [if_neg hc7] at h
                    by_cases hc8 : c = '>'
                    · rw [if_pos hc8] at h
                      split at h
                      · rename_i r0 rest2
                        by_cases hr0 : r0 = '='
                        · rw [if_pos hr0] at h; exact eof_step ih h
                        · rw [if_neg hr0] at h; exact eof_step ih h
                      · exact eof_step ih h
                    · rw [if_neg hc8] at h
                      by_cases hc9 : c = '!'
                      · rw [if_pos hc9] at h
                        split at h
                        · rename_i r0 rest2
                          by_cases hr0 : r0 = '='
                          · rw [if_pos hr0] at h; exact eof_step ih h
                          · rw [if_neg hr0] at h; exact Except.noConfusion h
                        · exact Except.noConfusion h
                      · rw [if_neg hc9] at h
                        by_cases hc10 : c = '🡨'
                        · rw [if_pos hc10] at h; exact eof_step ih h
                        · rw [if_neg hc10] at h
                          split at h
                          · rename_i k hsk; exact eof_step ih h
                          · exact Except.noConfusion h

theorem bool_false_of_not {b : Bool} (h : ¬(b = true)) : b = false := by
  cases b
  · rfl
  · exact absurd rfl h

theorem lexErr_rec {f : Nat} {cs2 cs1 : List Char} {l2 c2 p2 : Nat} {e : LexError}
    (IH : ∀ cs line col pos e, lexLoop f cs line col pos = .error e →
      (cs.length < f → e.kind ≠ .outOfFuel) ∧
      (∀ ch, e.kind = .badChar ch → charStartsToken ch = false))
    (hrec : lexLoop f cs2 l2 c2 p2 = .error e)
    (hlen : cs2.length < cs1.length) :
    (cs1.length < f + 1 → e.kind ≠ .outOfFuel) ∧
    (∀ ch, e.kind = .badChar ch → charStartsToken ch = false) := by
  obtain ⟨h1, h2⟩ := IH _ _ _ _ _ hrec
  exact ⟨fun hm => h1 (by omega), h2⟩

theorem lexLoop_error :
    ∀ (fuel : Nat) (cs : List Char) (line col pos : Nat) (e : LexError),
    lexLoop fuel cs line col pos = .error e →
    (cs.length < fuel → e.kind ≠ .outOfFuel) ∧
    (∀ ch, e.kind = .badChar ch → charStartsToken ch = false) := by
  intro fuel
  induction fuel with
  | zero =>
    intro cs line col pos e h
    have he := Except.error.inj h
    subst he
    exact ⟨fun hm => absurd hm (by omega), fun ch hk => LexErrKind.noConfusion hk⟩
  | succ f ih =>
    intro cs line col pos e h
    match cs with
    | [] =>
      simp only [lexLoop] at h
      exact Except.noConfusion h
    | c :: rest =>
      simp only [lexLoop] at h
      by_cases hc1 : c = '\n'
      · rw [if_pos hc1] at h
        exact lexErr_rec ih h (by simp)
      · rw [if_neg hc1] at h
        by_cases hc2 : isSpaceChar c = true
        · rw [if_pos hc2] at h
          exact lexErr_rec ih h (by simp)
        · rw [if_neg hc2] at h
          by_cases hc3 : c = '#'
          · rw [if_pos hc3] at h
            refine lexErr_rec ih h ?_
            simp only [List.length_cons]
            exact Nat.lt_succ_of_le ((List.dropWhile_sublist _).length_le)
          · rw [if_neg hc3] at h
            by_cases hc4 : isIdentStart c = true
            · rw [if_pos hc4] at h
              rw [except_map_error] at h
              refine lexErr_rec ih h ?_
              simp only [List.length_cons]
              exact Nat.lt_succ_of_le ((List.dropWhile_sublist _).length_le)
            · rw [if_neg hc4] at h
              by_cases hc5 : c.isDigit = true
              · rw [if_pos hc5] at h
                split at h
                · rename_i p0 p1 rest3 heq
                  by_cases hpd : p0 = '.' ∧ p1.isDigit = true
                  · rw [if_pos hpd] at h
                    rw [except_map_error] at h
                    refine lexErr_rec ih h ?_
                    have h1 := (List.dropWhile_sublist Char.isDigit (l := rest)).length_le
                    rw [heq] at h1
                    simp only [List.length_cons] at h1 ⊢
                    have h2 := (List.dropWhile_sublist Char.isDigit (l := rest3)).length_le
                    omega
                  · rw [if_neg hpd] at h
                    rw [except_map_error] at h
                    refine lexErr_rec ih h ?_
                    simp only [List.length_cons]
                    exact Nat.lt_succ_of_le ((List.dropWhile_sublist _).length_le)
                · rw [except_map_error] at h
                  refine lexErr_rec ih h ?_
                  simp only [List.length_cons]
                  exact Nat.lt_succ_of_le ((List.dropWhile_sublist _).length_le)
              · rw [if_neg hc5] at h
                by_cases hc6 : c = '"' ∨ c = '\''
                · rw [if_pos hc6] at h
                  split at h
                  · rename_i q rest3 heq
                    by_cases hq : q = c
                    · rw [if_pos hq] at h
                      rw [except_map_error] at h
                      refine lexErr_rec ih h ?_
                      have h1 := (List.dropWhile_sublist
                        (fun x => !(x == c) && !(x == '\n')) (l := rest)).length_le
                      rw [heq] at h1
                      simp only [List.length_cons] at h1 ⊢
                      omega
                    · rw [if_neg hq] at h
                      have he := Except.error.inj h
                      subst he
                      exact ⟨fun _ hk => LexErrKind.noConfusion hk,
                        fun ch hk => LexErrKind.noConfusion hk⟩
                  · have he := Except.error.inj h
                    subst he
                    exact ⟨fun _ hk => LexErrKind.noConfusion hk,
                      fun ch hk => LexErrKind.noConfusion hk⟩
                · rw [if_neg hc6] at h
                  by_cases hc7 : c = '<'
                  · rw [if_pos hc7] at h
                    split at h
                    · rename_i r0 rest2
                      by_cases hr0 : r0 = '-'
                      · rw [if_pos hr0] at h
                        rw [except_map_error] at h
                        refine lexErr_rec ih h ?_
                        simp only [List.length_cons]
                        omega
                      · rw [if_neg hr0] at h
                        by_cases hr1 : r0 = '='
                        · rw [if_pos hr1] at h
                          rw [except_map_error] at h
                          refine lexErr_rec ih h ?_
                          simp only [List.length_cons]
                          omega
                        · rw [if_neg hr1] at h
                          by_cases hr2 : r0 = '>'
                          · rw [if_pos hr2] at h
                            rw [except_map_error] at h
                            refine lexErr_rec ih h ?_
                            simp only [List.length_cons]
                            omega
                          · rw [if_neg hr2] at h
                            rw [except_map_error] at h
                            refine lexErr_rec ih h ?_
                            simp only [List.length_cons]
                            omega
                    · rw [except_map_error] at h
                      exact lexErr_rec ih h (by simp)
                  · rw [if_neg hc7] at h
                    by_cases hc8 : c = '>'
                    · rw [if_pos hc8] at h
                      split at h
                      · rename_i r0 rest2
                        by_cases hr0 : r0 = '='
                        · rw [if_pos hr0] at h
                          rw [except_map_error] at h
                          refine lexErr_rec ih h ?_
                          simp only [List.length_cons]
                          omega
                        · rw [if_neg hr0] at h
                          rw [except_map_error] at h
                          refine lexErr_rec ih h ?_
                          simp only [List.length_cons]
                          omega
                      · rw [except_map_error] at h
                        exact lexErr_rec ih h (by simp)
                    · rw [if_neg hc8] at h
                      by_cases hc9 : c = '!'
                      · rw [if_pos hc9] at h
                        split at h
                        · rename_i r0 rest2
                          by_cases hr0 : r0 = '='
                          · rw [if_pos hr0] at h
                            rw [except_map_error] at h
                            refine lexErr_rec ih h ?_
                            simp only [List.length_cons]
                            omega
                          · rw [if_neg hr0] at h
                            have he := Except.error.inj h
                            subst he
                            refine ⟨fun _ hk => LexErrKind.noConfusion hk, ?_⟩
                            intro ch hk
                            cases hk
                            rw [hc9]
                            decide
                        · have he := Except.error.inj h
                          subst he
                          refine ⟨fun _ hk => LexErrKind.noConfusion hk, ?_⟩
                          intro ch hk
                          cases hk
                          rw [hc9]
                          decide
                      · rw [if_neg hc9] at h
                        by_cases hc10 : c = '🡨'
                        · rw [if_pos hc10] at h
                          rw [except_map_error] at h
                          exact lexErr_rec ih h (by simp)
                        · rw [if_neg hc10] at h
                          split at h
                          · rename_i k hsk
                            rw [except_map_error] at h
                            exact lexErr_rec ih h (by simp)
                          · rename_i hsk
                            have he := Except.error.inj h
                            subst he
                            refine ⟨fun _ hk => LexErrKind.noConfusion hk, ?_⟩
                            intro ch hk
                            cases hk
                            have h2' := bool_false_of_not hc2
                            have h4' := bool_false_of_not hc4
                            have h5' := bool_false_of_not hc5
                            have h6a : ¬(c = '"') := fun hh => hc6 (Or.inl hh)
                            have h6b : ¬(c = '\'') := fun hh => hc6 (Or.inr hh)
                            simp [charStartsToken, hc1, hc3, h2', h4', h5', h6a, h6b,
                              hc7, hc8, hc10, hsk]


theorem ok_pair_le {o1 : Out} {i1 : Nat} {o : Out} {j : Nat}
    (h : (Except.ok (o1, i1) : Except SynErr (Out × Nat)) = .ok (o, j)) : j = i1 := by
  cases Except.ok.inj h
  rfl

theorem le_skipSemi (ts : List EToken) (k : Nat) : k ≤ skipSemi ts k := by
  unfold skipSemi
  split <;> omega

theorem skipSemi_le (ts : List EToken) (k : Nat) : skipSemi ts k ≤ k + 1 := by
  unfold skipSemi
  split <;> omega

theorem runCore_mono (ts : List EToken) :
    ∀ (f : Nat) (m : Mode) (i : Nat) (o : Out) (j : Nat),
    runCore ts f m i = .ok (o, j) → i ≤ j := by
  intro f
  induction f with
  | zero => intro m i o j h; exact Except.noConfusion h
  | succ f ih =>
    intro m i o j h
    cases m with
    | binL lvl =>
      simp only [runCore] at h
      split at h
      · rename_i l j1 heq
        exact Nat.le_trans (ih _ _ _ _ heq) (ih _ _ _ _ h)
      · exact Except.noConfusion h
      · exact Except.noConfusion h
    | binRest lvl acc =>
      simp only [runCore] at h
      split at h
      · split at h
        · rename_i r j1 heq
          have h1 := ih _ _ _ _ heq
          have h2 := ih _ _ _ _ h
          omega
        · exact Except.noConfusion h
        · exact Except.noConfusion h
      · have := ok_pair_le h
        omega
    | unaryM =>
      simp only [runCore] at h
      split at h
      · split at h
        · rename_i a j1 heq
          have h1 := ih _ _ _ _ heq
          have h2 := ok_pair_le h
          omega
        · exact Except.noConfusion h
        · exact Except.noConfusion h
      · split at h
        · split at h
          · rename_i a j1 heq
            have h1 := ih _ _ _ _ heq
            have h2 := ok_pair_le h
            omega
          · exact Except.noConfusion h
          · exact Except.noConfusion h
        · exact ih _ _ _ _ h
    | primary =>
      simp only [runCore] at h
      split at h
      · have := ih _ _ _ _ h
        omega
      · have := ih _ _ _ _ h
        omega
      · have := ih _ _ _ _ h
        omega
      · have := ih _ _ _ _ h
        omega
      · have := ih _ _ _ _ h
        omega
      · split at h
        · split at h
          · rename_i args j1 heq
            have h1 := ih _ _ _ _ heq
            have h2 := ih _ _ _ _ h
            omega
          · exact Except.noConfusion h
          · exact Except.noConfusion h
        · have := ih _ _ _ _ h
          omega
      · split at h
        · rename_i e j1 heq
          split at h
          · have h1 := ih _ _ _ _ heq
            have h2 := ih _ _ _ _ h
            omega
          · exact Except.noConfusion h
        · exact Except.noConfusion h
        · exact Except.noConfusion h
      · exact Except.noConfusion h
    | suffix acc =>
      simp only [runCore] at h
      split at h
      · split at h
        · rename_i e j1 heq
          split at h
          · have h1 := ih _ _ _ _ heq
            have h2 := ih _ _ _ _ h
            omega
          · exact Except.noConfusion h
        · exact Except.noConfusion h
        · exact Except.noConfusion h
      · have := ok_pair_le h
        omega
    | argsStart =>
      simp only [runCore] at h
      split at h
      · have := ok_pair_le h
        omega
      · split at h
        · rename_i e j1 heq
          have h1 := ih _ _ _ _ heq
          have h2 := ih _ _ _ _ h
          omega
        · exact Except.noConfusion h
        · exact Except.noConfusion h
    | argsRest acc =>
      simp only [runCore] at h
      split at h
      · split at h
        · rename_i e j1 heq
          have h1 := ih _ _ _ _ heq
          have h2 := ih _ _ _ _ h
          omega
        · exact Except.noConfusion h
        · exact Except.noConfusion h
      · split at h
        · have := ok_pair_le h
          omega
        · exact Except.noConfusion h
    | dims acc =>
      simp only [runCore] at h
      split at h
      · split at h
        · rename_i e j1 heq
          split at h
          · have h1 := ih _ _ _ _ heq
            have h2 := ih _ _ _ _ h
            omega
          · exact Except.noConfusion h
        · exact Except.noConfusion h
        · exact Except.noConfusion h
      · have := ok_pair_le h
        omega
    | declList =>
      simp only [runCore] at h
      split at h
      · split at h
        · rename_i ds j1 heq
          split at h
          · split at h
            · rename_i rest2 k heq2
              have h1 := ih _ _ _ _ heq
              have h2 := ih _ _ _ _ heq2
              have h3 := ok_pair_le h
              omega
            · exact Except.noConfusion h
            · exact Except.noConfusion h
          · have h1 := ih _ _ _ _ heq
            have h2 := ok_pair_le h
            omega
        · exact Except.noConfusion h
        · exact Except.noConfusion h
      · exact Except.noConfusion h
    | stmtM =>
      simp only [runCore] at h
      split at h
      · split at h
        · rename_i ds j1 heq
          split at h
          · split at h
            · rename_i v k heq2
              have h1 := ih _ _ _ _ heq
              have h2 := ih _ _ _ _ heq2
              have h3 := ok_pair_le h
              have h4 := le_skipSemi ts k
              omega
            · exact Except.noConfusion h
            · exact Except.noConfusion h
          · have h1 := ih _ _ _ _ heq
            have h2 := ok_pair_le h
            have h3 := le_skipSemi ts j1
            omega
        · exact Except.noConfusion h
        · exact Except.noConfusion h
      · split at h
        · -- kwIf
          split at h
          · rename_i cnd j1 heq
            split at h
            · split at h
              · rename_i thenB k heq2
                split at h
                · split at h
                  · rename_i elseB mm heq3
                    split at h
                    · have h1 := ih _ _ _ _ heq
                      have h2 := ih _ _ _ _ heq2
                      have h3 := ih _ _ _ _ heq3
                      have h4 := ok_pair_le h
                      have h5 := le_skipSemi ts (mm + 1)
                      omega
                    · exact Except.noConfusion h
                  · exact Except.noConfusion h
                  · exact Except.noConfusion h
                · split at h
                  · have h1 := ih _ _ _ _ heq
                    have h2 := ih _ _ _ _ heq2
                    have h3 := ok_pair_le h
                    have h4 := le_skipSemi ts (k + 1)
                    omega
                  · exact Except.noConfusion h
              · exact Except.noConfusion h
              · exact Except.noConfusion h
            · exact Except.noConfusion h
          · exact Except.noConfusion h
          · exact Except.noConfusion h
        · -- kwWhile
          split at h
          · rename_i cnd j1 heq
            split at h
            · split at h
              · rename_i body k heq2
                split at h
                · have h1 := ih _ _ _ _ heq
                  have h2 := ih _ _ _ _ heq2
                  have h3 := ok_pair_le h
                  have h4 := le_skipSemi ts (k + 1)
                  omega
                · exact Except.noConfusion h
              · exact Except.noConfusion h
              · exact Except.noConfusion h
            · exact Except.noConfusion h
          · exact Except.noConfusion h
          · exact Except.noConfusion h
        · -- kwFor
          split at h
          · split at h
            · split at h
              · rename_i fromE j1 heq
                split at h
                · split at h
                  · rename_i toE k heq2
                    split at h
                    · split at h
                      · rename_i stepE mm heq3
                        split at h
                        · split at h
                          · rename_i body q heq4
                            split at h
                            · have h1 := ih _ _ _ _ heq
                              have h2 := ih _ _ _ _ heq2
                              have h3 := ih _ _ _ _ heq3
                              have h4 := ih _ _ _ _ heq4
                              have h5 := ok_pair_le h
                              have h6 := le_skipSemi ts (q + 1)
                              omega
                            · exact Except.noConfusion h
                          · exact Except.noConfusion h
                          · exact Except.noConfusion h
                        · exact Except.noConfusion h
                      · exact Except.noConfusion h
                      · exact Except.noConfusion h
                    · split at h
                      · split at h
                        · rename_i body q heq4
                          split at h
                          · have h1 := ih _ _ _ _ heq
                            have h2 := ih _ _ _ _ heq2
                            have h3 := ih _ _ _ _ heq4
                            have h4 := ok_pair_le h
                            have h5 := le_skipSemi ts (q + 1)
                            omega
                          · exact Except.noConfusion h
                        · exact Except.noConfusion h
                        · exact Except.noConfusion h
                      · exact Except.noConfusion h
                  · exact Except.noConfusion h
                  · exact Except.noConfusion h
                · exact Except.noConfusion h
              · exact Except.noConfusion h
              · exact Except.noConfusion h
            · exact Except.noConfusion h
          · exact Except.noConfusion h
        · -- kwBegin
          split at h
          · rename_i body k heq
            split at h
            · have h1 := ih _ _ _ _ heq
              have h2 := ok_pair_le h
              have h3 := le_skipSemi ts (k + 1)
              omega
            · exact Except.noConfusion h
          · exact Except.noConfusion h
          · exact Except.noConfusion h
        · -- lbrace
          split at h
          · rename_i body k heq
            split at h
            · have h1 := ih _ _ _ _ heq
              have h2 := ok_pair_le h
              have h3 := le_skipSemi ts (k + 1)
              omega
            · exact Except.noConfusion h
          · exact Except.noConfusion h
          · exact Except.noConfusion h
        · -- identTok
          split at h
          · split at h
            · rename_i args j1 heq
              have h1 := ih _ _ _ _ heq
              have h2 := ok_pair_le h
              have h3 := le_skipSemi ts j1
              omega
            · exact Except.noConfusion h
            · exact Except.noConfusion h
          · split at h
            · rename_i target j1 heq
              split at h
              · split at h
                · rename_i v k heq2
                  have h1 := ih _ _ _ _ heq
                  have h2 := ih _ _ _ _ heq2
                  have h3 := ok_pair_le h
                  have h4 := le_skipSemi ts k
                  omega
                · exact Except.noConfusion h
                · exact Except.noConfusion h
              · exact Except.noConfusion h
            · exact Except.noConfusion h
            · exact Except.noConfusion h
        · -- default
          exact Except.noConfusion h
    | stmtsM stops =>
      simp only [runCore] at h
      split at h
      · have := ok_pair_le h
        omega
      · split at h
        · rename_i s j1 heq
          split at h
          · rename_i ss k heq2
            have h1 := ih _ _ _ _ heq
            have h2 := ih _ _ _ _ heq2
            have h3 := ok_pair_le h
            omega
          · exact Except.noConfusion h
          · exact Except.noConfusion h
        · exact Except.noConfusion h
        · exact Except.noConfusion h


theorem runCore_stmt_progress (ts : List EToken) :
    ∀ (f : Nat) (i : Nat) (o : Out) (j : Nat),
    runCore ts f .stmtM i = .ok (o, j) → i < j := by
  intro f i o j h
  match f with
  | 0 => exact Except.noConfusion h
  | f + 1 =>
      simp only [runCore] at h
      split at h
      · split at h
        · rename_i ds j1 heq
          split at h
          · split at h
            · rename_i v k heq2
              have h1 := runCore_mono ts f _ _ _ _ heq
              have h2 := runCore_mono ts f _ _ _ _ heq2
              have h3 := ok_pair_le h
              have h4 := le_skipSemi ts k
              omega
            · exact Except.noConfusion h
            · exact Except.noConfusion h
          · have h1 := runCore_mono ts f _ _ _ _ heq
            have h2 := ok_pair_le h
            have h3 := le_skipSemi ts j1
            omega
        · exact Except.noConfusion h
        · exact Except.noConfusion h
      · split at h
        · -- kwIf
          split at h
          · rename_i cnd j1 heq
            split at h
            · split at h
              · rename_i thenB k heq2
                split at h
                · split at h
                  · rename_i elseB mm heq3
                    split at h
                    · have h1 := runCore_mono ts f _ _ _ _ heq
                      have h2 := runCore_mono ts f _ _ _ _ heq2
                      have h3 := runCore_mono ts f _ _ _ _ heq3
                      have h4 := ok_pair_le h
                      have h5 := le_skipSemi ts (mm + 1)
                      omega
                    · exact Except.noConfusion h
                  · exact Except.noConfusion h
                  · exact Except.noConfusion h
                · split at h
                  · have h1 := runCore_mono ts f _ _ _ _ heq
                    have h2 := runCore_mono ts f _ _ _ _ heq2
                    have h3 := ok_pair_le h
                    have h4 := le_skipSemi ts (k + 1)
                    omega
                  · exact Except.noConfusion h
              · exact Except.noConfusion h
              · exact Except.noConfusion h
            · exact Except.noConfusion h
          · exact Except.noConfusion h
          · exact Except.noConfusion h
        · -- kwWhile
          split at h
          · rename_i cnd j1 heq
            split at h
            · split at h
              · rename_i body k heq2
                split at h
                · have h1 := runCore_mono ts f _ _ _ _ heq
                  have h2 := runCore_mono ts f _ _ _ _ heq2
                  have h3 := ok_pair_le h
                  have h4 := le_skipSemi ts (k + 1)
                  omega
                · exact Except.noConfusion h
              · exact Except.noConfusion h
              · exact Except.noConfusion h
            · exact Except.noConfusion h
          · exact Except.noConfusion h
          · exact Except.noConfusion h
        · -- kwFor
          split at h
          · split at h
            · split at h
              · rename_i fromE j1 heq
                split at h
                · split at h
                  · rename_i toE k heq2
                    split at h
                    · split at h
                      · rename_i stepE mm heq3
                        split at h
                        · split at h
                          · rename_i body q heq4
                            split at h
                            · have h1 := runCore_mono ts f _ _ _ _ heq
                              have h2 := runCore_mono ts f _ _ _ _ heq2
                              have h3 := runCore_mono ts f _ _ _ _ heq3
                              have h4 := runCore_mono ts f _ _ _ _ heq4
                              have h5 := ok_pair_le h
                              have h6 := le_skipSemi ts (q + 1)
                              omega
                            · exact Except.noConfusion h
                          · exact Except.noConfusion h
                          · exact Except.noConfusion h
                        · exact Except.noConfusion h
                      · exact Except.noConfusion h
                      · exact Except.noConfusion h
                    · split at h
                      · split at h
                        · rename_i body q heq4
                          split at h
                          · have h1 := runCore_mono ts f _ _ _ _ heq
                            have h2 := runCore_mono ts f _ _ _ _ heq2
                            have h3 := runCore_mono ts f _ _ _ _ heq4
                            have h4 := ok_pair_le h
                            have h5 := le_skipSemi ts (q + 1)
                            omega
                          · exact Except.noConfusion h
                        · exact Except.noConfusion h
                        · exact Except.noConfusion h
                      · exact Except.noConfusion h
                  · exact Except.noConfusion h
                  · exact Except.noConfusion h
                · exact Except.noConfusion h
              · exact Except.noConfusion h
              · exact Except.noConfusion h
            · exact Except.noConfusion h
          · exact Except.noConfusion h
        · -- kwBegin
          split at h
          · rename_i body k heq
            split at h
            · have h1 := runCore_mono ts f _ _ _ _ heq
              have h2 := ok_pair_le h
              have h3 := le_skipSemi ts (k + 1)
              omega
            · exact Except.noConfusion h
          · exact Except.noConfusion h
          · exact Except.noConfusion h
        · -- lbrace
          split at h
          · rename_i body k heq
            split at h
            · have h1 := runCore_mono ts f _ _ _ _ heq
              have h2 := ok_pair_le h
              have h3 := le_skipSemi ts (k + 1)
              omega
            · exact Except.noConfusion h
          · exact Except.noConfusion h
          · exact Except.noConfusion h
        · -- identTok
          split at h
          · split at h
            · rename_i args j1 heq
              have h1 := runCore_mono ts f _ _ _ _ heq
              have h2 := ok_pair_le h
              have h3 := le_skipSemi ts j1
              omega
            · exact Except.noConfusion h
            · exact Except.noConfusion h
          · split at h
            · rename_i target j1 heq
              split at h
              · split at h
                · rename_i v k heq2
                  have h1 := runCore_mono ts f _ _ _ _ heq
                  have h2 := runCore_mono ts f _ _ _ _ heq2
                  have h3 := ok_pair_le h
                  have h4 := le_skipSemi ts k
                  omega
                · exact Except.noConfusion h
                · exact Except.noConfusion h
              · exact Except.noConfusion h
            · exact Except.noConfusion h
            · exact Except.noConfusion h
        · -- default
          exact Except.noConfusion h

theorem ok_st_inj {s0 : Stmt} {i1 : Nat} {s : Stmt} {j : Nat}
    (h : (Except.ok (Out.st s0, i1) : Except SynErr (Out × Nat)) = .ok (.st s, j)) :
    s = s0 ∧ j = i1 := by
  have hp := Except.ok.inj h
  have h1 : Out.st s0 = Out.st s := congrArg Prod.fst hp
  have h2 : i1 = j := congrArg Prod.snd hp
  exact ⟨(Out.st.inj h1).symm, h2.symm⟩

theorem runCore_stmt_line (ts : List EToken) :
    ∀ (f : Nat) (i : Nat) (s : Stmt) (j : Nat),
    runCore ts f .stmtM i = .ok (.st s, j) → stmtLine s = (etk ts i).line := by
  intro f i s j h
  match f with
  | 0 => exact Except.noConfusion h
  | f + 1 =>
      simp only [runCore] at h
      split at h
      · split at h
        · rename_i ds j1 heq
          split at h
          · split at h
            · rename_i v k heq2
              obtain ⟨hs, hj⟩ := ok_st_inj h
              subst hs
              rfl
            · exact Except.noConfusion h
            · exact Except.noConfusion h
          · obtain ⟨hs, hj⟩ := ok_st_inj h
            subst hs
            rfl
        · exact Except.noConfusion h
        · exact Except.noConfusion h
      · split at h
        · -- kwIf
          split at h
          · rename_i cnd j1 heq
            split at h
            · split at h
              · rename_i thenB k heq2
                split at h
                · split at h
                  · rename_i elseB mm heq3
                    split at h
                    · obtain ⟨hs, hj⟩ := ok_st_inj h
                      subst hs
                      rfl
                    · exact Except.noConfusion h
                  · exact Except.noConfusion h
                  · exact Except.noConfusion h
                · split at h
                  · obtain ⟨hs, hj⟩ := ok_st_inj h
                    subst hs
                    rfl
                  · exact Except.noConfusion h
              · exact Except.noConfusion h
              · exact Except.noConfusion h
            · exact Except.noConfusion h
          · exact Except.noConfusion h
          · exact Except.noConfusion h
        · -- kwWhile
          split at h
          · rename_i cnd j1 heq
            split at h
            · split at h
              · rename_i body k heq2
                split at h
                · obtain ⟨hs, hj⟩ := ok_st_inj h
                  subst hs
                  rfl
                · exact Except.noConfusion h
              · exact Except.noConfusion h
              · exact Except.noConfusion h
            · exact Except.noConfusion h
          · exact Except.noConfusion h
          · exact Except.noConfusion h
        · -- kwFor
          split at h
          · split at h
            · split at h
              · rename_i fromE j1 heq
                split at h
                · split at h
                  · rename_i toE k heq2
                    split at h
                    · split at h
                      · rename_i stepE mm heq3
                        split at h
                        · split at h
                          · rename_i body q heq4
                            split at h
                            · obtain ⟨hs, hj⟩ := ok_st_inj h
                              subst hs
                              rfl
                            · exact Except.noConfusion h
                          · exact Except.noConfusion h
                          · exact Except.noConfusion h
                        · exact Except.noConfusion h
                      · exact Except.noConfusion h
                      · exact Except.noConfusion h
                    · split at h
                      · split at h
                        · rename_i body q heq4
                          split at h
                          · obtain ⟨hs, hj⟩ := ok_st_inj h
                            subst hs
                            rfl
                          · exact Except.noConfusion h
                        · exact Except.noConfusion h
                        · exact Except.noConfusion h
                      · exact Except.noConfusion h
                  · exact Except.noConfusion h
                  · exact Except.noConfusion h
                · exact Except.noConfusion h
              · exact Except.noConfusion h
              · exact Except.noConfusion h
            · exact Except.noConfusion h
          · exact Except.noConfusion h
        · -- kwBegin
          split at h
          · rename_i body k heq
            split at h
            · obtain ⟨hs, hj⟩ := ok_st_inj h
              subst hs
              rfl
            · exact Except.noConfusion h
          · exact Except.noConfusion h
          · exact Except.noConfusion h
        · -- lbrace
          split at h
          · rename_i body k heq
            split at h
            · obtain ⟨hs, hj⟩ := ok_st_inj h
              subst hs
              rfl
            · exact Except.noConfusion h
          · exact Except.noConfusion h
          · exact Except.noConfusion h
        · -- identTok
          split at h
          · split at h
            · rename_i args j1 heq
              obtain ⟨hs, hj⟩ := ok_st_inj h
              subst hs
              rfl
            · exact Except.noConfusion h
            · exact Except.noConfusion h
          · split at h
            · rename_i target j1 heq
              split at h
              · split at h
                · rename_i v k heq2
                  obtain ⟨hs, hj⟩ := ok_st_inj h
                  subst hs
                  rfl
                · exact Except.noConfusion h
                · exact Except.noConfusion h
              · exact Except.noConfusion h
            · exact Except.noConfusion h
            · exact Except.noConfusion h
        · -- default
          exact Except.noConfusion h


theorem ok_sts_inj {ss0 : List Stmt} {i1 : Nat} {ss : List Stmt} {j : Nat}
    (h : (Except.ok (Out.sts ss0, i1) : Except SynErr (Out × Nat)) = .ok (.sts ss, j)) :
    ss = ss0 ∧ j = i1 := by
  have hp := Except.ok.inj h
  have h1 : Out.sts ss0 = Out.sts ss := congrArg Prod.fst hp
  have h2 : i1 = j := congrArg Prod.snd hp
  exact ⟨(Out.sts.inj h1).symm, h2.symm⟩

theorem runCore_stmts_order (ts : List EToken) :
    ∀ (f : Nat) (stops : List TokenKind) (i : Nat) (ss : List Stmt) (j : Nat),
    runCore ts f (.stmtsM stops) i = .ok (.sts ss, j) →
    ∃ idxs : List Nat,
      idxs.length = ss.length ∧
      List.Chain' (· < ·) idxs ∧
      (∀ x ∈ idxs, i ≤ x) ∧
      (idxs = [] ∨ idxs.head? = some i) ∧
      (∀ p ∈ idxs.zip ss, ∃ g j2, runCore ts g .stmtM p.1 = .ok (.st p.2, j2)) := by
  intro f
  induction f with
  | zero => intro stops i ss j h; exact Except.noConfusion h
  | succ f ih =>
    intro stops i ss j h
    simp only [runCore] at h
    split at h
    · obtain ⟨hss, hj⟩ := ok_sts_inj h
      subst hss
      exact ⟨[], rfl, List.chain'_nil, by simp, Or.inl rfl, by simp⟩
    · split at h
      · rename_i s j1 heq
        split at h
        · rename_i ss2 k heq2
          obtain ⟨hss, hj⟩ := ok_sts_inj h
          subst hss
          obtain ⟨idxs, hlen, hch, hge, hhead, hall⟩ := ih _ _ _ _ heq2
          have hprog : i < j1 := runCore_stmt_progress ts f i _ j1 heq
          refine ⟨i :: idxs, by simp [hlen], ?_, ?_, Or.inr rfl, ?_⟩
          · rw [List.chain'_cons']
            refine ⟨?_, hch⟩
            intro y hy
            rcases hhead with hnil | hhd
            · subst hnil
              simp at hy
            · rw [Option.mem_def, hhd] at hy
              have hyj : j1 = y := Option.some.inj hy
              exact hyj ▸ hprog
          · intro x hx
            rcases List.mem_cons.mp hx with rfl | hx2
            · exact Nat.le_refl _
            · exact Nat.le_trans (Nat.le_of_lt hprog) (hge x hx2)
          · intro p hp
            rw [List.zip_cons_cons] at hp
            rcases List.mem_cons.mp hp with rfl | hp2
            · exact ⟨f, j1, heq⟩
            · exact hall p hp2
        · exact Except.noConfusion h
        · exact Except.noConfusion h
      · exact Except.noConfusion h
      · exact Except.noConfusion h

theorem runCore_while_missing (ts : List EToken)
    (f i : Nat) (c : Expr) (j : Nat) (body : List Stmt) (k : Nat)
    (hw : (etk ts i).kind = .kwWhile)
    (he : runCore ts f (.binL 0) (i + 1) = .ok (.ex c, j))
    (hd : (etk ts j).kind = .kwDo)
    (hb : runCore ts f (.stmtsM [.kwEndWhile]) (j + 1) = .ok (.sts body, k))
    (hnt : (etk ts k).kind ≠ .kwEndWhile) :
    runCore ts (f + 1) .stmtM i =
      .error ⟨"missing loop terminator END_WHILE / FIN_MIENTRAS", [.kwEndWhile], k⟩ := by
  have hbt : baseTypeOf (etk ts i).kind = none := by rw [hw]; rfl
  simp [runCore, hbt, hw, he, hd, hb, hnt]
  rfl

theorem runCore_if_missing (ts : List EToken)
    (f i : Nat) (c : Expr) (j : Nat) (thenB : List Stmt) (k : Nat)
    (hw : (etk ts i).kind = .kwIf)
    (he : runCore ts f (.binL 0) (i + 1) = .ok (.ex c, j))
    (hth : (etk ts j).kind = .kwThen)
    (hb : runCore ts f (.stmtsM [.kwElse, .kwEndIf]) (j + 1) = .ok (.sts thenB, k))
    (hne : (etk ts k).kind ≠ .kwElse)
    (hnt : (etk ts k).kind ≠ .kwEndIf) :
    runCore ts (f + 1) .stmtM i =
      .error ⟨"missing conditional terminator END_IF / FIN_SI", [.kwElse, .kwEndIf], k⟩ := by
  have hbt : baseTypeOf (etk ts i).kind = none := by rw [hw]; rfl
  simp [runCore, hbt, hw, he, hth, hb, hne, hnt]
  rfl

theorem runCore_if_else_missing (ts : List EToken)
    (f i : Nat) (c : Expr) (j : Nat) (thenB : List Stmt) (k : Nat)
    (elseB : List Stmt) (m : Nat)
    (hw : (etk ts i).kind = .kwIf)
    (he : runCore ts f (.binL 0) (i + 1) = .ok (.ex c, j))
    (hth : (etk ts j).kind = .kwThen)
    (hb : runCore ts f (.stmtsM [.kwElse, .kwEndIf]) (j + 1) = .ok (.sts thenB, k))
    (hel : (etk ts k).kind = .kwElse)
    (hbe : runCore ts f (.stmtsM [.kwEndIf]) (k + 1) = .ok (.sts elseB, m))
    (hnt : (etk ts m).kind ≠ .kwEndIf) :
    runCore ts (f + 1) .stmtM i =
      .error ⟨"missing conditional terminator END_IF / FIN_SI", [.kwEndIf], m⟩ := by
  have hbt : baseTypeOf (etk ts i).kind = none := by rw [hw]; rfl
  simp [runCore, hbt, hw, he, hth, hb, hel, hbe, hnt]
  rfl

theorem runCore_for_missing (ts : List EToken)
    (f i : Nat) (fromE : Expr) (j : Nat) (toE : Expr) (k : Nat)
    (body : List Stmt) (q : Nat)
    (hw : (etk ts i).kind = .kwFor)
    (hv : (etk ts (i + 1)).kind = .identTok)
    (ha : (etk ts (i + 2)).kind = .opEq ∨ (etk ts (i + 2)).kind = .opAssign)
    (hfrom : runCore ts f (.binL 0) (i + 3) = .ok (.ex fromE, j))
    (hto : (etk ts j).kind = .kwTo)
    (htoe : runCore ts f (.binL 0) (j + 1) = .ok (.ex toE, k))
    (hdo : (etk ts k).kind = .kwDo)
    (hbody : runCore ts f (.stmtsM [.kwEndFor]) (k + 1) = .ok (.sts body, q))
    (hnt : (etk ts q).kind ≠ .kwEndFor) :
    runCore ts (f + 1) .stmtM i =
      .error ⟨"missing loop terminator END_FOR / FIN_PARA", [.kwEndFor], q⟩ := by
  have hbt : baseTypeOf (etk ts i).kind = none := by rw [hw]; rfl
  have hks : (etk ts k).kind ≠ .kwStep := by rw [hdo]; decide
  simp [runCore, hbt, hw, hv, ha, hfrom, hto, htoe, hks, hdo, hbody, hnt]
  rfl

theorem runCore_begin_missing (ts : List EToken)
    (f i : Nat) (body : List Stmt) (k : Nat)
    (hw : (etk ts i).kind = .kwBegin)
    (hb : runCore ts f (.stmtsM [.kwEnd]) (i + 1) = .ok (.sts body, k))
    (hnt : (etk ts k).kind ≠ .kwEnd) :
    runCore ts (f + 1) .stmtM i =
      .error ⟨"missing block terminator END / FIN", [.kwEnd], k⟩ := by
  have hbt : baseTypeOf (etk ts i).kind = none := by rw [hw]; rfl
  simp [runCore, hbt, hw, hb, hnt]
  rfl

theorem runCore_brace_missing (ts : List EToken)
    (f i : Nat) (body : List Stmt) (k : Nat)
    (hw : (etk ts i).kind = .lbrace)
    (hb : runCore ts f (.stmtsM [.rbrace]) (i + 1) = .ok (.sts body, k))
    (hnt : (etk ts k).kind ≠ .rbrace) :
    runCore ts (f + 1) .stmtM i =
      .error ⟨"missing closing brace", [.rbrace], k⟩ := by
  have hbt : baseTypeOf (etk ts i).kind = none := by rw [hw]; rfl
  simp [runCore, hbt, hw, hb, hnt]
  rfl


/-! ## Claim theorems -/

/-- Claim C1: the Spanish-keyword and the English-keyword spelling of an
otherwise-identical source lex to the same token kinds and parse to
structurally identical trees, with no language-tagged field in the AST.
Formalised as: (1) every bilingual keyword pair resolves to one common
`TokenKind` in the single lookup table; (2) the parser core consumes
only erased tokens (kind, semantic lexeme of identifiers and literals,
line), so any two token sequences with equal erasures give equal
successful results; (3) the two spellings of the scenario-2 program
parse to equal values end to end. -/
theorem c1_bilingual_equivalence :
    (∀ p ∈ bilingualPairs, kwLookup p.1 = kwLookup p.2 ∧ (kwLookup p.1).isSome = true) ∧
    (∀ (toks toks' : List Token) (f : Nat) (m : Mode) (i : Nat) (r : Out × Nat),
      toks.map eraseTok = toks'.map eraseTok →
      runCore (toks.map eraseTok) f m i = .ok r →
      runCore (toks'.map eraseTok) f m i = .ok r) ∧
    parse "SI x > 0 ENTONCES print(x); FIN_SI" =
      parse "IF x > 0 THEN print(x); END_IF" := by
  refine ⟨by decide, ?_, rfl⟩
  intro toks toks' f m i r hmap hrun
  rw [← hmap]
  exact hrun

/-- Witness for C1 at concrete inputs: the Spanish and English spelling
of the while keyword share one kind, and a Spanish-keyword token list
parses to the same expression as its English twin. -/
theorem c1_bilingual_equivalence_witness :
    kwLookup "MIENTRAS" = kwLookup "WHILE" ∧
    runCore (([⟨.kwTrue, "TRUE", 1, 1, 0⟩, ⟨.eofTok, "", 1, 5, 4⟩] : List Token).map
        eraseTok) 8 (.binL 0) 0 = .ok (.ex (.lit (.boolV true)), 1) :=
  ⟨(c1_bilingual_equivalence.1 ("MIENTRAS", "WHILE") (by decide)).1,
   c1_bilingual_equivalence.2.1
     [⟨.kwTrue, "VERDADERO", 1, 1, 0⟩, ⟨.eofTok, "", 1, 10, 9⟩]
     [⟨.kwTrue, "TRUE", 1, 1, 0⟩, ⟨.eofTok, "", 1, 5, 4⟩]
     8 (.binL 0) 0 _ rfl rfl⟩

/-- Claim C2: every statement node records the 1-based source line of
its leading token.  Formalised as: (1) every token the lexer emits
carries the 1-based line of its first character in the source text;
(2) whenever the statement parser succeeds at token index i, the
produced node records the line of the token at i (its leading token);
(3) erasure preserves token lines. -/
theorem c2_line_fidelity :
    (∀ (src : String) (ts : List Token), lex src = .ok ts →
      ∀ t ∈ ts, t.line = 1 + (src.toList.take t.pos).count '\n') ∧
    (∀ (ts : List EToken) (f i : Nat) (s : Stmt) (j : Nat),
      runCore ts f .stmtM i = .ok (.st s, j) → stmtLine s = (etk ts i).line) ∧
    (∀ t : Token, (eraseTok t).line = t.line) := by
  refine ⟨?_, runCore_stmt_line, fun t => rfl⟩
  intro src ts h t ht
  obtain ⟨h1, h2, h3, h4⟩ := lexLoop_inv _ _ _ _ _ _ h t ht
  simpa using h2

/-- Witness for C2 at concrete inputs: the token `b` on the second line
of a two-line source records line 2, and a parsed assignment records
the line of its leading token. -/
theorem c2_line_fidelity_witness :
    (⟨.identTok, "b", 2, 1, 6⟩ : Token).line =
      1 + (("a = 1\nb = 2").toList.take 6).count '\n' ∧
    stmtLine (.assign 1 (.identE "x") (.lit (.intV 5))) =
      (etk [⟨.identTok, "x", 1⟩, ⟨.opEq, "", 1⟩, ⟨.intLit, "5", 1⟩,
        ⟨.eofTok, "", 1⟩] 0).line :=
  ⟨c2_line_fidelity.1 "a = 1\nb = 2"
     [⟨.identTok, "a", 1, 1, 0⟩, ⟨.opEq, "=", 1, 3, 2⟩, ⟨.intLit, "1", 1, 5, 4⟩,
      ⟨.identTok, "b", 2, 1, 6⟩, ⟨.opEq, "=", 2, 3, 8⟩, ⟨.intLit, "2", 2, 5, 10⟩,
      ⟨.eofTok, "", 2, 6, 11⟩] rfl _ (by decide),
   c2_line_fidelity.2.1
     [⟨.identTok, "x", 1⟩, ⟨.opEq, "", 1⟩, ⟨.intLit, "5", 1⟩, ⟨.eofTok, "", 1⟩]
     50 0 (.assign 1 (.identE "x") (.lit (.intV 5))) 3 rfl⟩

/-- Claim C3: a statement whose required block terminator is absent
fails with an error naming the expected terminator kind and carrying
the position where the terminator was expected.  One general clause
per block form: while without END_WHILE / FIN_MIENTRAS, if without
END_IF / FIN_SI (with and without an else branch), for without
END_FOR / FIN_PARA, a BEGIN / INICIO block without END / FIN, and a
brace block without its closing brace.  Concrete instances: the
scenario-4 input `MIENTRAS x < 10 HACER x = x + 1` (and its English
twin) errors on line 1, the line of the WHILE header, naming
END_WHILE / FIN_MIENTRAS; a program with FIN_SI omitted, one with
FIN_PARA omitted and one with FIN omitted each raise the matching
error. -/
theorem c3_missing_terminator :
    (∀ (ts : List EToken) (f i : Nat) (c : Expr) (j : Nat) (body : List Stmt) (k : Nat),
      (etk ts i).kind = .kwWhile →
      runCore ts f (.binL 0) (i + 1) = .ok (.ex c, j) →
      (etk ts j).kind = .kwDo →
      runCore ts f (.stmtsM [.kwEndWhile]) (j + 1) = .ok (.sts body, k) →
      (etk ts k).kind ≠ .kwEndWhile →
      runCore ts (f + 1) .stmtM i =
        .error ⟨"missing loop terminator END_WHILE / FIN_MIENTRAS", [.kwEndWhile], k⟩) ∧
    (∀ (ts : List EToken) (f i : Nat) (c : Expr) (j : Nat) (thenB : List Stmt) (k : Nat),
      (etk ts i).kind = .kwIf →
      runCore ts f (.binL 0) (i + 1) = .ok (.ex c, j) →
      (etk ts j).kind = .kwThen →
      runCore ts f (.stmtsM [.kwElse, .kwEndIf]) (j + 1) = .ok (.sts thenB, k) →
      (etk ts k).kind ≠ .kwElse →
      (etk ts k).kind ≠ .kwEndIf →
      runCore ts (f + 1) .stmtM i =
        .error ⟨"missing conditional terminator END_IF / FIN_SI", [.kwElse, .kwEndIf], k⟩) ∧
    (∀ (ts : List EToken) (f i : Nat) (c : Expr) (j : Nat) (thenB : List Stmt) (k : Nat)
      (elseB : List Stmt) (m : Nat),
      (etk ts i).kind = .kwIf →
      runCore ts f (.binL 0) (i + 1) = .ok (.ex c, j) →
      (etk ts j).kind = .kwThen →
      runCore ts f (.stmtsM [.kwElse, .kwEndIf]) (j + 1) = .ok (.sts thenB, k) →
      (etk ts k).kind = .kwElse →
      runCore ts f (.stmtsM [.kwEndIf]) (k + 1) = .ok (.sts elseB, m) →
      (etk ts m).kind ≠ .kwEndIf →
      runCore ts (f + 1) .stmtM i =
        .error ⟨"missing conditional terminator END_IF / FIN_SI", [.kwEndIf], m⟩) ∧
    (∀ (ts : List EToken) (f i : Nat) (fromE : Expr) (j : Nat) (toE : Expr) (k : Nat)
      (body : List Stmt) (q : Nat),
      (etk ts i).kind = .kwFor →
      (etk ts (i + 1)).kind = .identTok →
      ((etk ts (i + 2)).kind = .opEq ∨ (etk ts (i + 2)).kind = .opAssign) →
      runCore ts f (.binL 0) (i + 3) = .ok (.ex fromE, j) →
      (etk ts j).kind = .kwTo →
      runCore ts f (.binL 0) (j + 1) = .ok (.ex toE, k) →
      (etk ts k).kind = .kwDo →
      runCore ts f (.stmtsM [.kwEndFor]) (k + 1) = .ok (.sts body, q) →
      (etk ts q).kind ≠ .kwEndFor →
      runCore ts (f + 1) .stmtM i =
        .error ⟨"missing loop terminator END_FOR / FIN_PARA", [.kwEndFor], q⟩) ∧
    (∀ (ts : List EToken) (f i : Nat) (body : List Stmt) (k : Nat),
      (etk ts i).kind = .kwBegin →
      runCore ts f (.stmtsM [.kwEnd]) (i + 1) = .ok (.sts body, k) →
      (etk ts k).kind ≠ .kwEnd →
      runCore ts (f + 1) .stmtM i =
        .error ⟨"missing block terminator END / FIN", [.kwEnd], k⟩) ∧
    (∀ (ts : List EToken) (f i : Nat) (body : List Stmt) (k : Nat),
      (etk ts i).kind = .lbrace →
      runCore ts f (.stmtsM [.rbrace]) (i + 1) = .ok (.sts body, k) →
      (etk ts k).kind ≠ .rbrace →
      runCore ts (f + 1) .stmtM i =
        .error ⟨"missing closing brace", [.rbrace], k⟩) ∧
    parse "MIENTRAS x < 10 HACER x = x + 1" =
      .error ⟨.syntacticE, "missing loop terminator END_WHILE / FIN_MIENTRAS",
        1, 32, [.kwEndWhile]⟩ ∧
    parse "WHILE x < 10 DO x = x + 1" =
      .error ⟨.syntacticE, "missing loop terminator END_WHILE / FIN_MIENTRAS",
        1, 26, [.kwEndWhile]⟩ ∧
    parse "SI x > 0 ENTONCES print(x)" =
      .error ⟨.syntacticE, "missing conditional terminator END_IF / FIN_SI",
        1, 27, [.kwElse, .kwEndIf]⟩ ∧
    parse "PARA i = 1 HASTA n HACER suma = suma + i;" =
      .error ⟨.syntacticE, "missing loop terminator END_FOR / FIN_PARA",
        1, 42, [.kwEndFor]⟩ ∧
    parse "INICIO x = 1;" =
      .error ⟨.syntacticE, "missing block terminator END / FIN",
        1, 14, [.kwEnd]⟩ ∧
    (lex "MIENTRAS x < 10 HACER x = x + 1").toOption.map
      (fun ts => ts.head?.map Token.line) = some (some 1) :=
  ⟨fun ts f i c j body k => runCore_while_missing ts f i c j body k,
   fun ts f i c j thenB k => runCore_if_missing ts f i c j thenB k,
   fun ts f i c j thenB k elseB m => runCore_if_else_missing ts f i c j thenB k elseB m,
   fun ts f i fromE j toE k body q => runCore_for_missing ts f i fromE j toE k body q,
   fun ts f i body k => runCore_begin_missing ts f i body k,
   fun ts f i body k => runCore_brace_missing ts f i body k,
   rfl, rfl, rfl, rfl, rfl, rfl⟩

/-- Witness for C3 at concrete token sequences: the scenario-4 while
program (missing FIN_MIENTRAS) and an if program with FIN_SI omitted. -/
theorem c3_missing_terminator_witness :
    runCore [⟨.kwWhile, "", 1⟩, ⟨.identTok, "x", 1⟩, ⟨.opLt, "", 1⟩,
      ⟨.intLit, "10", 1⟩, ⟨.kwDo, "", 1⟩, ⟨.identTok, "x", 1⟩, ⟨.opEq, "", 1⟩,
      ⟨.identTok, "x", 1⟩, ⟨.opPlus, "", 1⟩, ⟨.intLit, "1", 1⟩, ⟨.eofTok, "", 1⟩]
      51 .stmtM 0 =
      .error ⟨"missing loop terminator END_WHILE / FIN_MIENTRAS", [.kwEndWhile], 10⟩ ∧
    runCore [⟨.kwIf, "", 1⟩, ⟨.identTok, "x", 1⟩, ⟨.opGt, "", 1⟩, ⟨.intLit, "0", 1⟩,
      ⟨.kwThen, "", 1⟩, ⟨.identTok, "print", 1⟩, ⟨.lparen, "", 1⟩,
      ⟨.identTok, "x", 1⟩, ⟨.rparen, "", 1⟩, ⟨.eofTok, "", 1⟩]
      51 .stmtM 0 =
      .error ⟨"missing conditional terminator END_IF / FIN_SI",
        [.kwElse, .kwEndIf], 9⟩ :=
  ⟨c3_missing_terminator.1 _ 50 0
     (.binary .ltOp (.identE "x") (.lit (.intV 10))) 4
     [.assign 1 (.identE "x") (.binary .addOp (.identE "x") (.lit (.intV 1)))] 10
     rfl rfl rfl rfl (by decide),
   c3_missing_terminator.2.1 _ 50 0
     (.binary .gtOp (.identE "x") (.lit (.intV 0))) 4
     [.callS 1 "print" [.identE "x"]] 9
     rfl rfl rfl rfl (by decide) (by decide)⟩

/-- Claim C4: the lexer is total: on success the token sequence is
finite and ends with the end-of-input token; on failure the error is
never the internal fuel marker, and an unrecognized-character error is
only raised on a character that starts no lexical rule; the input
`x = @` fails at line 1, column 5, the exact column of `@`. -/
theorem c4_lexer_totality :
    (∀ (src : String) (ts : List Token), lex src = .ok ts →
      ∃ t, ts.getLast? = some t ∧ t.kind = .eofTok) ∧
    (∀ (src : String) (e : LexError), lex src = .error e →
      e.kind ≠ .outOfFuel ∧ ∀ ch, e.kind = .badChar ch → charStartsToken ch = false) ∧
    lex "x = @" = .error ⟨.badChar '@', 1, 5⟩ := by
  refine ⟨?_, ?_, rfl⟩
  · intro src ts h
    exact lexLoop_eof _ _ _ _ _ _ h
  · intro src e h
    obtain ⟨h1, h2⟩ := lexLoop_error _ _ _ _ _ _ h
    exact ⟨h1 (by omega), h2⟩

/-- Witness for C4 at concrete inputs: the token sequence of `x = 1`
ends with the end-of-input token, and the bad character of `@` starts
no lexical rule. -/
theorem c4_lexer_totality_witness :
    (∃ t, ([⟨.identTok, "x", 1, 1, 0⟩, ⟨.opEq, "=", 1, 3, 2⟩, ⟨.intLit, "1", 1, 5, 4⟩,
      ⟨.eofTok, "", 1, 6, 5⟩] : List Token).getLast? = some t ∧ t.kind = .eofTok) ∧
    charStartsToken '@' = false :=
  ⟨c4_lexer_totality.1 "x = 1" _ rfl,
   (c4_lexer_totality.2.1 "@" ⟨.badChar '@', 1, 1⟩ rfl).2 '@' rfl⟩

/-- Claim C5: statement lists preserve source order.  Formalised as:
(1) whenever a statement sequence is parsed, there is a strictly
increasing list of begin indices, starting at the sequence entry
index, such that the k-th returned statement is exactly the result of
the statement parser at the k-th begin index — the list order is the
order of the leading tokens in the source; (2) a successful `parse`
returns exactly the statement list of the top-level sequence run, so
the same holds for the Program node. -/
theorem c5_order_preservation :
    (∀ (ts : List EToken) (f : Nat) (stops : List TokenKind) (i : Nat)
      (ss : List Stmt) (j : Nat),
      runCore ts f (.stmtsM stops) i = .ok (.sts ss, j) →
      ∃ idxs : List Nat,
        idxs.length = ss.length ∧
        List.Chain' (· < ·) idxs ∧
        (∀ x ∈ idxs, i ≤ x) ∧
        (idxs = [] ∨ idxs.head? = some i) ∧
        (∀ p ∈ idxs.zip ss, ∃ g j2, runCore ts g .stmtM p.1 = .ok (.st p.2, j2))) ∧
    (∀ (src : String) (prog : Program), parse src = .ok prog →
      ∃ toks j, lex src = .ok toks ∧
        runCore (toks.map eraseTok) (parserFuel toks.length) (.stmtsM []) 0 =
          .ok (.sts prog.stmts, j)) := by
  refine ⟨runCore_stmts_order, ?_⟩
  intro src prog h
  simp only [parse] at h
  split at h
  · exact Except.noConfusion h
  · rename_i toks hlex
    split at h
    · exact Except.noConfusion h
    · rename_i ss j heq
      split at h
      · cases Except.ok.inj h
        exact ⟨toks, j, hlex, heq⟩
      · exact Except.noConfusion h
    · exact Except.noConfusion h

/-- Witness for C5 at a concrete two-statement program. -/
theorem c5_order_preservation_witness :
    ∃ idxs : List Nat,
      idxs.length = ([.assign 1 (.identE "a") (.lit (.intV 1)),
        .assign 1 (.identE "b") (.lit (.intV 2))] : List Stmt).length ∧
      List.Chain' (· < ·) idxs ∧
      (∀ x ∈ idxs, 0 ≤ x) ∧
      (idxs = [] ∨ idxs.head? = some 0) ∧
      (∀ p ∈ idxs.zip ([.assign 1 (.identE "a") (.lit (.intV 1)),
          .assign 1 (.identE "b") (.lit (.intV 2))] : List Stmt),
        ∃ g j2, runCore [⟨.identTok, "a", 1⟩, ⟨.opEq, "", 1⟩, ⟨.intLit, "1", 1⟩,
          ⟨.semicolon, "", 1⟩, ⟨.identTok, "b", 1⟩, ⟨.opEq, "", 1⟩, ⟨.intLit, "2", 1⟩,
          ⟨.semicolon, "", 1⟩, ⟨.eofTok, "", 1⟩] g .stmtM p.1 = .ok (.st p.2, j2)) :=
  c5_order_preservation.1
    [⟨.identTok, "a", 1⟩, ⟨.opEq, "", 1⟩, ⟨.intLit, "1", 1⟩, ⟨.semicolon, "", 1⟩,
     ⟨.identTok, "b", 1⟩, ⟨.opEq, "", 1⟩, ⟨.intLit, "2", 1⟩, ⟨.semicolon, "", 1⟩,
     ⟨.eofTok, "", 1⟩]
    100 [] 0
    [.assign 1 (.identE "a") (.lit (.intV 1)), .assign 1 (.identE "b") (.lit (.intV 2))]
    8 rfl

/-- Claim C6: parse is deterministic and free of shared mutable state:
it is a pure function of the source string alone (the model has no
other state), so two calls on equal strings yield equal results. -/
theorem c6_parse_deterministic : ∀ s t : String, s = t → parse s = parse t := by
  intro s t h
  rw [h]

/-- Witness for C6 at a concrete input. -/
theorem c6_parse_deterministic_witness :
    parse "ENTERO x = 5;" = parse "ENTERO x = 5;" :=
  c6_parse_deterministic _ _ rfl

/-- Claim C7: multi-character operators are recognized greedily before
single-character fallbacks, and the Unicode assignment arrow is
equivalent to the two-character arrow.  Formalised as: (1) in any
successful lexing, no less-than token is immediately followed (at the
next source position) by a minus token — an occurrence of the arrow
never lexes as two tokens; (2) the concrete kind sequences of the
two-character operators and the Unicode arrow. -/
theorem c7_greedy_operators :
    (∀ (src : String) (ts : List Token), lex src = .ok ts →
      ∀ t1 ∈ ts, t1.kind = .opLt → ∀ t2 ∈ ts, t2.kind = .opMinus →
        t2.pos ≠ t1.pos + 1) ∧
    lexKinds "a<-b" = some [.identTok, .opAssign, .identTok, .eofTok] ∧
    lexKinds "a<=b" = some [.identTok, .opLe, .identTok, .eofTok] ∧
    lexKinds "a>=b" = some [.identTok, .opGe, .identTok, .eofTok] ∧
    lexKinds "a<>b" = some [.identTok, .opNe, .identTok, .eofTok] ∧
    lexKinds "a!=b" = some [.identTok, .opNe, .identTok, .eofTok] ∧
    lexKinds "a<b" = some [.identTok, .opLt, .identTok, .eofTok] ∧
    lexKinds "a 🡨 b" = some [.identTok, .opAssign, .identTok, .eofTok] := by
  refine ⟨?_, rfl, rfl, rfl, rfl, rfl, rfl, rfl⟩
  intro src ts h t1 h1m hk1 t2 h2m hk2 hpos
  obtain ⟨_, _, hlt, _⟩ := lexLoop_inv _ _ _ _ _ _ h t1 h1m
  obtain ⟨_, _, _, hmin⟩ := lexLoop_inv _ _ _ _ _ _ h t2 h2m
  have ha := hlt hk1
  have hb := hmin hk2
  rw [hpos] at hb
  rw [List.getElem?_drop] at ha hb
  have ha2 : src.toList[t1.pos + 1]? ≠ some '-' := by simpa using ha
  have hb2 : src.toList[t1.pos + 1]? = some '-' := by simpa using hb
  exact ha2 hb2

/-- Witness for C7 at a concrete input with both a less-than token and
a (non-adjacent) minus token. -/
theorem c7_greedy_operators_witness :
    (⟨.opMinus, "-", 1, 5, 4⟩ : Token).pos ≠ (⟨.opLt, "<", 1, 2, 1⟩ : Token).pos + 1 :=
  c7_greedy_operators.1 "a<b - c"
    [⟨.identTok, "a", 1, 1, 0⟩, ⟨.opLt, "<", 1, 2, 1⟩, ⟨.identTok, "b", 1, 3, 2⟩,
     ⟨.opMinus, "-", 1, 5, 4⟩, ⟨.identTok, "c", 1, 7, 6⟩, ⟨.eofTok, "", 1, 8, 7⟩]
    rfl _ (by decide) rfl _ (by decide) rfl

/-- Claim C8: the for-loop header captures from, to, and the optional
step as arbitrary expressions, with an absent step represented as
none: the scenario-3 input parses to the expected ForStmt with
step = none, and a header with compound expressions and a PASO step
captures them unchanged. -/
theorem c8_for_header :
    parse "PARA i = 1 HASTA n HACER suma = suma + i; FIN_PARA" =
      .ok ⟨[.forS 1 "i" (.lit (.intV 1)) (.identE "n") none
        [.assign 1 (.identE "suma") (.binary .addOp (.identE "suma") (.identE "i"))]]⟩ ∧
    parse "PARA i = a + 1 HASTA n * 2 PASO k HACER suma = suma + i; FIN_PARA" =
      .ok ⟨[.forS 1 "i" (.binary .addOp (.identE "a") (.lit (.intV 1)))
        (.binary .mulOp (.identE "n") (.lit (.intV 2))) (some (.identE "k"))
        [.assign 1 (.identE "suma") (.binary .addOp (.identE "suma") (.identE "i"))]]⟩ :=
  ⟨rfl, rfl⟩

/-- Claim C9: whenever extra.cases is a non-empty array,
detectAnalysisType returns "iterative" — the extra.cases check runs
before and takes priority over every later check, including
explain_solution_steps entries with case_type and a type field equal
to "Recursivo" — and a null or undefined input yields "unknown". -/
theorem c9_detect_priority :
    (∀ (d : JVal) (l : List JVal), getF (getF d "extra") "cases" = .jarr l → l ≠ [] →
      detectAnalysisType d = "iterative") ∧
    detectAnalysisType .jnull = "unknown" ∧
    detectAnalysisType .jundefined = "unknown" := by
  refine ⟨?_, rfl, rfl⟩
  intro d l hc hne
  cases d with
  | jobj fs =>
    unfold detectAnalysisType
    rw [hc]
    rw [if_neg (by simp [truthy])]
    rw [if_pos ⟨rfl, rfl, List.length_pos.mpr hne⟩]
  | jnull => simp [getF] at hc
  | jundefined => simp [getF] at hc
  | jbool b => simp [getF] at hc
  | jnum n => simp [getF] at hc
  | jstr s => simp [getF] at hc
  | jarr es => simp [getF] at hc

/-- Witness for C9 at a concrete object that also carries recursive
markers: extra.cases wins. -/
theorem c9_detect_priority_witness :
    detectAnalysisType (.jobj
      [("extra", .jobj [("cases", .jarr [.jnum 1])]),
       ("explain_solution_steps", .jarr [.jobj [("case_type", .jstr "Recursivo")]]),
       ("type", .jstr "Recursivo")]) = "iterative" :=
  c9_detect_priority.1 _ [.jnum 1] rfl (by simp)

/-- Claim C10: parseLineAnalysis is total and never throws: null and
undefined yield the empty array; a string containing Error or === is
short-circuited to the empty array; a string JSON.parse rejects is
caught and yields the empty array (the try/catch is modelled by the
Option result of jsonParse); an accepted string returns the parsed
value; an array input is returned unchanged; every other non-string
input yields the empty array. -/
theorem c10_parseLineAnalysis_total :
    (parseLineAnalysis .jnull = .jarr [] ∧ parseLineAnalysis .jundefined = .jarr []) ∧
    (∀ s : String, (strIncludes s "Error" = true ∨ strIncludes s "===" = true) →
      parseLineAnalysis (.jstr s) = .jarr []) ∧
    (∀ s : String, jsonParse s = none → parseLineAnalysis (.jstr s) = .jarr []) ∧
    (∀ (s : String) (v : JVal), s ≠ "" →
      ¬(strIncludes s "Error" = true ∨ strIncludes s "===" = true) →
      jsonParse s = some v → parseLineAnalysis (.jstr s) = v) ∧
    (∀ l : List JVal, parseLineAnalysis (.jarr l) = .jarr l) ∧
    (∀ v : JVal, isStr v = false → isArr v = false → parseLineAnalysis v = .jarr []) := by
  refine ⟨⟨rfl, rfl⟩, ?_, ?_, ?_, ?_, ?_⟩
  · intro s hs
    by_cases ht : truthy (.jstr s) = true
    · simp only [parseLineAnalysis, ht]
      rw [if_neg (by simp)]
      rw [if_pos hs]
    · simp only [parseLineAnalysis, bool_false_of_not ht]
      rfl
  · intro s hj
    by_cases ht : truthy (.jstr s) = true
    · simp only [parseLineAnalysis, ht]
      rw [if_neg (by simp)]
      by_cases hinc : strIncludes s "Error" = true ∨ strIncludes s "===" = true
      · rw [if_pos hinc]
      · rw [if_neg hinc, hj]
    · simp only [parseLineAnalysis, bool_false_of_not ht]
      rfl
  · intro s v hne hinc hj
    have ht : truthy (.jstr s) = true := by
      simp [truthy]
      exact hne
    simp only [parseLineAnalysis, ht]
    rw [if_neg (by simp)]
    rw [if_neg hinc, hj]
  · intro l
    simp only [parseLineAnalysis, truthy]
    rfl
  · intro v hs ha
    cases v with
    | jstr s => simp [isStr] at hs
    | jarr l => simp [isArr] at ha
    | jnull => rfl
    | jundefined => rfl
    | jbool b =>
      unfold parseLineAnalysis
      split
      · rfl
      · rfl
    | jnum n =>
      unfold parseLineAnalysis
      split
      · rfl
      · rfl
    | jobj fs =>
      unfold parseLineAnalysis
      split
      · rfl
      · rfl

/-- Witness for C10 at concrete inputs covering the guarded string
branch, a rejected JSON string, an accepted JSON string, and a plain
object input. -/
theorem c10_parseLineAnalysis_total_witness :
    parseLineAnalysis (.jstr "=== totals") = .jarr [] ∧
    parseLineAnalysis (.jstr "not json") = .jarr [] ∧
    parseLineAnalysis (.jstr "[1, 2]") = .jarr [.jnum 1, .jnum 2] ∧
    parseLineAnalysis (.jobj []) = .jarr [] :=
  ⟨c10_parseLineAnalysis_total.2.1 "=== totals" (Or.inr (by decide)),
   c10_parseLineAnalysis_total.2.2.1 "not json" rfl,
   c10_parseLineAnalysis_total.2.2.2.1 "[1, 2]" (.jarr [.jnum 1, .jnum 2])
     (by decide) (by decide) rfl,
   c10_parseLineAnalysis_total.2.2.2.2.2 (.jobj []) rfl rfl⟩


end AA
